import Mathlib

/-!
Verification of the JSON-RPC path rewrite shim (src/python/pyright_shim.py).

Modelling conventions:
* A Python `str` is modelled as `List Nat`, the list of its Unicode code points.
* A byte stream (`bytes`) is also `List Nat`, the list of byte values (each < 256).
* `urllib.parse.quote` / `unquote` and UTF-8 encoding/decoding are modelled at the
  byte level faithfully for ASCII and well-formed data; for malformed UTF-8 the
  replacement-character placement approximates CPython `errors=replace`.
* JSON numbers are modelled as integers (the shim's protocol traffic does not rely
  on float payloads; float semantics are outside the embedding).
-/

/-- Code points of a Lean string literal; models a Python `str` value. -/
def pyStr (s : String) : List Nat := s.data.map Char.toNat

/-- Models Python `value.startswith(p)`: `startsWithL p value`. -/
def startsWithL : List Nat → List Nat → Bool
  | [], _ => true
  | _ :: _, [] => false
  | p :: ps, c :: cs => p == c && startsWithL ps cs

/-- Byte layout of the UTF-8 encoding of a single code point (standard
    multi-byte layout).  This is the success path only: CPython's
    str.encode(utf-8) uses errors=strict and raises UnicodeEncodeError on a
    lone surrogate; that exception is modelled where the program can hit it,
    by quoteCpE and encode_uri_componentE inside the rewriter (json.dumps with
    its default ensure_ascii escapes every non-ASCII character before the
    write_message encode, which therefore never raises). -/
def utf8EncodeCp (n : Nat) : List Nat :=
  if n < 0x80 then [n]
  else if n < 0x800 then [0xC0 + n / 0x40, 0x80 + n % 0x40]
  else if n < 0x10000 then [0xE0 + n / 0x1000, 0x80 + n / 0x40 % 0x40, 0x80 + n % 0x40]
  else [0xF0 + n / 0x40000, 0x80 + n / 0x1000 % 0x40, 0x80 + n / 0x40 % 0x40, 0x80 + n % 0x40]

/-- UTF-8 encoding of a code-point string, models Python `s.encode(utf-8)`. -/
def utf8Encode (cps : List Nat) : List Nat := (cps.map utf8EncodeCp).flatten

/-- Byte list of an ASCII Lean string literal; models a Python `bytes` literal. -/
def pyBytes (s : String) : List Nat := utf8Encode (pyStr s)

/-- Is `b` a UTF-8 continuation byte. -/
def isCont (b : Nat) : Bool := 0x80 ≤ b && b ≤ 0xBF

/-- Valid second byte of a 3- or 4-byte UTF-8 sequence whose first byte is `b1`
    (excludes overlong encodings and surrogates, as CPython does). -/
def cont2ok (b1 b2 : Nat) : Bool :=
  if b1 == 0xE0 then 0xA0 ≤ b2 && b2 ≤ 0xBF
  else if b1 == 0xED then 0x80 ≤ b2 && b2 ≤ 0x9F
  else if b1 == 0xF0 then 0x90 ≤ b2 && b2 ≤ 0xBF
  else if b1 == 0xF4 then 0x80 ≤ b2 && b2 ≤ 0x8F
  else isCont b2

/-- Uppercase hex digit (code point) of `n < 16`; CPython percent-encoding is uppercase. -/
def hexUpper (n : Nat) : Nat := if n < 10 then 48 + n else 55 + n

/-- Lowercase hex digit (code point) of `n < 16`; CPython json escapes are lowercase. -/
def hexLower (n : Nat) : Nat := if n < 10 then 48 + n else 87 + n

/-- ASCII hex digit test, both cases, models `string.hexdigits` membership. -/
def isHexDigit (c : Nat) : Bool :=
  (48 ≤ c && c ≤ 57) || (65 ≤ c && c ≤ 70) || (97 ≤ c && c ≤ 102)

/-- Numeric value of an ASCII hex digit. -/
def hexVal (c : Nat) : Nat := if c ≤ 57 then c - 48 else if c ≤ 70 then c - 55 else c - 87

/-- Safe set of urllib.parse.quote with safe set slash: ASCII alphanumerics
    plus underscore, dot, dash, tilde, and the path separator slash. -/
def quoteSafe (c : Nat) : Bool :=
  (65 ≤ c && c ≤ 90) || (97 ≤ c && c ≤ 122) || (48 ≤ c && c ≤ 57) ||
  c == 95 || c == 46 || c == 45 || c == 126 || c == 47

/-- Percent-escape of one byte, three ASCII code points. -/
def pctByte (b : Nat) : List Nat := [37, hexUpper (b / 16), hexUpper (b % 16)]

/-- PathRewriter.encode_uri_component: `quote(path, safe=slash)`. A safe character
    is kept; any other character has each of its UTF-8 bytes percent-escaped. -/
def encode_uri_component (s : List Nat) : List Nat :=
  (s.map (fun c => if quoteSafe c then [c] else ((utf8EncodeCp c).map pctByte).flatten)).flatten

/-- Token stream used to model `unquote`: a percent-decoded byte, or a literal
    code point that was not part of a percent escape. -/
inductive PctTok where
  | byte : Nat → PctTok
  | lit : Nat → PctTok
  deriving DecidableEq

/-- First pass of `unquote`: a percent sign followed by two hex digits becomes a
    byte; any other character is kept literally (as CPython unquote does). -/
def pctTokens : List Nat → List PctTok
  | [] => []
  | 37 :: h :: l :: rest =>
    if isHexDigit h && isHexDigit l then .byte (hexVal h * 16 + hexVal l) :: pctTokens rest
    else .lit 37 :: pctTokens (h :: l :: rest)
  | c :: rest => .lit c :: pctTokens rest

mutual
/-- Second pass of `unquote`: decode runs of percent-decoded bytes as UTF-8 with
    replacement on error (models bytes.decode with errors=replace; the exact count
    of replacement characters on malformed input approximates CPython, following
    the maximal-subpart rule).  The fuel only bounds the recursion, one token or
    more per step, and is irrelevant beyond the token count. -/
def utf8FromToks : Nat → List PctTok → List Nat
  | 0, _ => []
  | _ + 1, [] => []
  | fuel + 1, .lit c :: rest => c :: utf8FromToks fuel rest
  | fuel + 1, .byte b :: rest =>
    if b < 0x80 then b :: utf8FromToks fuel rest
    else if 0xC2 ≤ b && b ≤ 0xDF then utf8Toks2 fuel b rest
    else if 0xE0 ≤ b && b ≤ 0xEF then utf8Toks3 fuel b rest
    else if 0xF0 ≤ b && b ≤ 0xF4 then utf8Toks4 fuel b rest
    else 0xFFFD :: utf8FromToks fuel rest

/-- Continuation of a 2-byte UTF-8 sequence in the replacement decoder. -/
def utf8Toks2 : Nat → Nat → List PctTok → List Nat
  | 0, _, _ => []
  | fuel + 1, b, .byte b2 :: rest2 =>
    if isCont b2 then ((b - 0xC0) * 0x40 + (b2 - 0x80)) :: utf8FromToks fuel rest2
    else 0xFFFD :: utf8FromToks fuel (.byte b2 :: rest2)
  | fuel + 1, _, other => 0xFFFD :: utf8FromToks fuel other

/-- Continuation of a 3-byte UTF-8 sequence in the replacement decoder. -/
def utf8Toks3 : Nat → Nat → List PctTok → List Nat
  | 0, _, _ => []
  | fuel + 1, b, .byte b2 :: .byte b3 :: rest2 =>
    if cont2ok b b2 then
      if isCont b3 then
        ((b - 0xE0) * 0x1000 + (b2 - 0x80) * 0x40 + (b3 - 0x80)) :: utf8FromToks fuel rest2
      else 0xFFFD :: utf8FromToks fuel (.byte b3 :: rest2)
    else 0xFFFD :: utf8FromToks fuel (.byte b2 :: .byte b3 :: rest2)
  | fuel + 1, b, .byte b2 :: rest2 =>
    if cont2ok b b2 then 0xFFFD :: utf8FromToks fuel rest2
    else 0xFFFD :: utf8FromToks fuel (.byte b2 :: rest2)
  | fuel + 1, _, other => 0xFFFD :: utf8FromToks fuel other

/-- Continuation of a 4-byte UTF-8 sequence in the replacement decoder. -/
def utf8Toks4 : Nat → Nat → List PctTok → List Nat
  | 0, _, _ => []
  | fuel + 1, b, .byte b2 :: .byte b3 :: .byte b4 :: rest2 =>
    if cont2ok b b2 then
      if isCont b3 then
        if isCont b4 then
          ((b - 0xF0) * 0x40000 + (b2 - 0x80) * 0x1000 + (b3 - 0x80) * 0x40 + (b4 - 0x80))
            :: utf8FromToks fuel rest2
        else 0xFFFD :: utf8FromToks fuel (.byte b4 :: rest2)
      else 0xFFFD :: utf8FromToks fuel (.byte b3 :: .byte b4 :: rest2)
    else 0xFFFD :: utf8FromToks fuel (.byte b2 :: .byte b3 :: .byte b4 :: rest2)
  | fuel + 1, b, .byte b2 :: .byte b3 :: rest2 =>
    if cont2ok b b2 && isCont b3 then 0xFFFD :: utf8FromToks fuel rest2
    else if cont2ok b b2 then 0xFFFD :: utf8FromToks fuel (.byte b3 :: rest2)
    else 0xFFFD :: utf8FromToks fuel (.byte b2 :: .byte b3 :: rest2)
  | fuel + 1, b, .byte b2 :: rest2 =>
    if cont2ok b b2 then 0xFFFD :: utf8FromToks fuel rest2
    else 0xFFFD :: utf8FromToks fuel (.byte b2 :: rest2)
  | fuel + 1, _, other => 0xFFFD :: utf8FromToks fuel other
end

/-- PathRewriter.decode_uri_component: `unquote(path)`. -/
def decode_uri_component (s : List Nat) : List Nat :=
  utf8FromToks (2 * (pctTokens s).length + 2) (pctTokens s)

/-- UTF-8 decoding of a byte string with replacement, models
    bytes.decode(utf-8, errors=replace). -/
def utf8DecodeReplace (bs : List Nat) : List Nat :=
  utf8FromToks (2 * bs.length + 2) (bs.map PctTok.byte)

mutual
/-- Strict UTF-8 decoding, models bytes.decode(utf-8) which raises on error. -/
def utf8DecodeStrict : List Nat → Option (List Nat)
  | [] => some []
  | b :: rest =>
    if b < 0x80 then (utf8DecodeStrict rest).map (b :: ·)
    else if 0xC2 ≤ b && b ≤ 0xDF then utf8Dec2 b rest
    else if 0xE0 ≤ b && b ≤ 0xEF then utf8Dec3 b rest
    else if 0xF0 ≤ b && b ≤ 0xF4 then utf8Dec4 b rest
    else none

/-- Continuation of a 2-byte sequence in the strict decoder. -/
def utf8Dec2 (b : Nat) : List Nat → Option (List Nat)
  | b2 :: rest2 =>
    if isCont b2 then (utf8DecodeStrict rest2).map (((b - 0xC0) * 0x40 + (b2 - 0x80)) :: ·)
    else none
  | [] => none

/-- Continuation of a 3-byte sequence in the strict decoder. -/
def utf8Dec3 (b : Nat) : List Nat → Option (List Nat)
  | b2 :: b3 :: rest2 =>
    if cont2ok b b2 && isCont b3 then
      (utf8DecodeStrict rest2).map
        (((b - 0xE0) * 0x1000 + (b2 - 0x80) * 0x40 + (b3 - 0x80)) :: ·)
    else none
  | _ => none

/-- Continuation of a 4-byte sequence in the strict decoder. -/
def utf8Dec4 (b : Nat) : List Nat → Option (List Nat)
  | b2 :: b3 :: b4 :: rest2 =>
    if cont2ok b b2 && isCont b3 && isCont b4 then
      (utf8DecodeStrict rest2).map
        (((b - 0xF0) * 0x40000 + (b2 - 0x80) * 0x1000 + (b3 - 0x80) * 0x40 + (b4 - 0x80)) :: ·)
    else none
  | _ => none
end

/-- The literal marker file-colon-slash-slash checked at source line 89. -/
def fileMarker : List Nat := pyStr "file://"

/-- The literal three-slash marker checked at source line 104. -/
def fileMarker3 : List Nat := pyStr "file:///"

/-- Body of the three-slash branch of PathRewriter.rewrite_path
    (source lines 104-115): strips eight characters, decodes, rewrites,
    re-encodes behind the three-slash marker. -/
def rewrite_path_slash3 (value fromPre toPre : List Nat) : List Nat :=
  let path := value.drop 8
  let path1 := if path.contains 37 then decode_uri_component path else path
  if startsWithL fromPre path1 then
    fileMarker3 ++ encode_uri_component (toPre ++ path1.drop fromPre.length)
  else value

/-- PathRewriter.rewrite_path (source lines 72-121) on a string value.
    Non-string values are returned unchanged by the source and are handled at
    the call sites of the structural traversal. -/
def rewrite_path (value fromPre toPre : List Nat) : List Nat :=
  if startsWithL fileMarker value then
    let path := value.drop 7
    let path1 := if path.contains 37 then decode_uri_component path else path
    if startsWithL fromPre path1 then
      fileMarker ++ encode_uri_component (toPre ++ path1.drop fromPre.length)
    else value
  else if startsWithL fileMarker3 value then
    rewrite_path_slash3 value fromPre toPre
  else if startsWithL fromPre value then
    toPre ++ value.drop fromPre.length
  else value

/-- rewrite_path with the dead three-slash branch (source lines 104-115) deleted. -/
def rewrite_path_nodead (value fromPre toPre : List Nat) : List Nat :=
  if startsWithL fileMarker value then
    let path := value.drop 7
    let path1 := if path.contains 37 then decode_uri_component path else path
    if startsWithL fromPre path1 then
      fileMarker ++ encode_uri_component (toPre ++ path1.drop fromPre.length)
    else value
  else if startsWithL fromPre value then
    toPre ++ value.drop fromPre.length
  else value

mutual
/-- A JSON-RPC message value: mapping, sequence, string, number, boolean or
    null.  Mappings keep key order (Python dicts preserve insertion order);
    numbers are modelled as integers. -/
inductive Msg where
  | str : List Nat → Msg
  | int : Int → Msg
  | bool : Bool → Msg
  | null : Msg
  | arr : MsgList → Msg
  | obj : MsgPairs → Msg
  deriving DecidableEq

inductive MsgList where
  | nil : MsgList
  | cons : Msg → MsgList → MsgList
  deriving DecidableEq

inductive MsgPairs where
  | nil : MsgPairs
  | cons : List Nat → Msg → MsgPairs → MsgPairs
  deriving DecidableEq
end

/-- Convenience conversion for writing sequence literals. -/
def mList : List Msg → MsgList
  | [] => .nil
  | m :: rest => .cons m (mList rest)

/-- Convenience conversion for writing mapping literals. -/
def mPairs : List (List Nat × Msg) → MsgPairs
  | [] => .nil
  | (k, v) :: rest => .cons k v (mPairs rest)

/-- PathRewriter.PATH_KEYS: keys whose values typically contain paths. -/
def PATH_KEYS : List (List Nat) :=
  [pyStr "uri", pyStr "targetUri", pyStr "source", pyStr "file", pyStr "path",
   pyStr "rootPath", pyStr "rootUri", pyStr "workspaceFolders",
   pyStr "documentUri", pyStr "newUri", pyStr "oldUri", pyStr "baseUri",
   pyStr "referenceUri", pyStr "targetRange", pyStr "targetSelectionRange"]

/-- PathRewriter.PATH_ARRAY_KEYS: declared in the source but never read by it. -/
def PATH_ARRAY_KEYS : List (List Nat) :=
  [pyStr "workspaceFolders", pyStr "files", pyStr "includedFiles", pyStr "excludedFiles"]

/-- Is the value a sequence, models isinstance(value, list). -/
def isArrMsg : Msg → Bool
  | .arr _ => true
  | _ => false

mutual
/-- PathRewriter.rewrite_object (source lines 124-168) and its traversal of
    dict items, of sequences under a known path key, and of plain sequences.
    The workspaceFolders arm of the source (line 152) is kept even though the
    first arm already captures that key, since it is a member of PATH_KEYS. -/
def rewrite_object (obj : Msg) (fromPre toPre : List Nat) : Msg :=
  match obj with
  | .obj pairs => .obj (rewriteDictItems pairs fromPre toPre)
  | .arr items => .arr (rewriteListItems items fromPre toPre)
  | .str s =>
    if startsWithL fromPre s || startsWithL fileMarker s then
      .str (rewrite_path s fromPre toPre)
    else .str s
  | other => other

def rewriteDictItems (pairs : MsgPairs) (fromPre toPre : List Nat) : MsgPairs :=
  match pairs with
  | .nil => .nil
  | .cons key value rest =>
    let newVal :=
      if PATH_KEYS.contains key then
        match value with
        | .str s => Msg.str (rewrite_path s fromPre toPre)
        | .arr items => Msg.arr (rewritePathArray items fromPre toPre)
        | other => rewrite_object other fromPre toPre
      else if key == pyStr "workspaceFolders" && isArrMsg value then
        match value with
        | .arr items => Msg.arr (rewriteListItems items fromPre toPre)
        | other => rewrite_object other fromPre toPre
      else rewrite_object value fromPre toPre
    .cons key newVal (rewriteDictItems rest fromPre toPre)

def rewritePathArray (items : MsgList) (fromPre toPre : List Nat) : MsgList :=
  match items with
  | .nil => .nil
  | .cons item rest =>
    let newItem :=
      match item with
      | .str s => Msg.str (rewrite_path s fromPre toPre)
      | other => rewrite_object other fromPre toPre
    .cons newItem (rewritePathArray rest fromPre toPre)

def rewriteListItems (items : MsgList) (fromPre toPre : List Nat) : MsgList :=
  match items with
  | .nil => .nil
  | .cons item rest =>
    .cons (rewrite_object item fromPre toPre) (rewriteListItems rest fromPre toPre)
end

mutual
/-- No string anywhere in the message starts with fromPrefix or with the
    file-URI marker (the claim C5 notion of containing no path-like string). -/
def pathFree (fromPre : List Nat) : Msg → Bool
  | .str s => !startsWithL fromPre s && !startsWithL fileMarker s
  | .arr items => pathFreeL fromPre items
  | .obj pairs => pathFreeP fromPre pairs
  | _ => true

def pathFreeL (fromPre : List Nat) : MsgList → Bool
  | .nil => true
  | .cons m rest => pathFree fromPre m && pathFreeL fromPre rest

def pathFreeP (fromPre : List Nat) : MsgPairs → Bool
  | .nil => true
  | .cons _ v rest => pathFree fromPre v && pathFreeP fromPre rest
end

/-- Unicode scalar value test: strings of a well-formed message contain no
    surrogate code points (CPython strs admit lone surrogates, but no valid
    protocol payload carries them). -/
def scalarCp (c : Nat) : Bool := c < 0xD800 || (0xE000 ≤ c && c < 0x110000)

/-- All code points of the string are Unicode scalar values. -/
def scalarStr (s : List Nat) : Bool := s.all scalarCp

mutual
/-- Well-formed message: every string (value or key) is made of Unicode
    scalar values. -/
def wfMsg : Msg → Bool
  | .str s => scalarStr s
  | .arr items => wfMsgL items
  | .obj pairs => wfMsgP pairs
  | _ => true

def wfMsgL : MsgList → Bool
  | .nil => true
  | .cons m rest => wfMsg m && wfMsgL rest

def wfMsgP : MsgPairs → Bool
  | .nil => true
  | .cons k v rest => scalarStr k && wfMsg v && wfMsgP rest
end

/-- One character of urllib.parse.quote as CPython executes it: quote first
    UTF-8 encodes the whole str with errors=strict, which raises
    UnicodeEncodeError on a lone surrogate (modelled as none); a safe
    character is kept, any other character has each of its UTF-8 bytes
    percent-escaped. -/
def quoteCpE (c : Nat) : Option (List Nat) :=
  if 0xD800 ≤ c && c < 0xE000 then none
  else some (if quoteSafe c then [c] else ((utf8EncodeCp c).map pctByte).flatten)

/-- PathRewriter.encode_uri_component as executed, with the UnicodeEncodeError
    that quote's strict UTF-8 encode raises on a lone surrogate propagated as
    none instead of collapsed. -/
def encode_uri_componentE : List Nat → Option (List Nat)
  | [] => some []
  | c :: rest =>
    match quoteCpE c, encode_uri_componentE rest with
    | some e, some es => some (e ++ es)
    | _, _ => none

/-- Body of the dead three-slash branch of rewrite_path with the quote
    exception propagated. -/
def rewrite_path_slash3E (value fromPre toPre : List Nat) : Option (List Nat) :=
  let path := value.drop 8
  let path1 := if path.contains 37 then decode_uri_component path else path
  if startsWithL fromPre path1 then
    (encode_uri_componentE (toPre ++ path1.drop fromPre.length)).map (fileMarker3 ++ ·)
  else some value

/-- PathRewriter.rewrite_path as executed: the quote call at source line 100
    (and 114) raises UnicodeEncodeError when the rewritten path still holds a
    lone surrogate (none); unquote uses errors=replace and never raises. -/
def rewrite_pathE (value fromPre toPre : List Nat) : Option (List Nat) :=
  if startsWithL fileMarker value then
    let path := value.drop 7
    let path1 := if path.contains 37 then decode_uri_component path else path
    if startsWithL fromPre path1 then
      (encode_uri_componentE (toPre ++ path1.drop fromPre.length)).map (fileMarker ++ ·)
    else some value
  else if startsWithL fileMarker3 value then
    rewrite_path_slash3E value fromPre toPre
  else if startsWithL fromPre value then
    some (toPre ++ value.drop fromPre.length)
  else some value

mutual
/-- PathRewriter.rewrite_object as executed: the UnicodeEncodeError that
    rewrite_path can raise propagates out of the recursive traversal (none),
    since no except clause guards it below the proxy loop. -/
def rewrite_objectE (obj : Msg) (fromPre toPre : List Nat) : Option Msg :=
  match obj with
  | .obj pairs => (rewriteDictItemsE pairs fromPre toPre).map Msg.obj
  | .arr items => (rewriteListItemsE items fromPre toPre).map Msg.arr
  | .str s =>
    if startsWithL fromPre s || startsWithL fileMarker s then
      (rewrite_pathE s fromPre toPre).map Msg.str
    else some (.str s)
  | other => some other

def rewriteDictItemsE (pairs : MsgPairs) (fromPre toPre : List Nat) : Option MsgPairs :=
  match pairs with
  | .nil => some .nil
  | .cons key value rest =>
    let newVal :=
      if PATH_KEYS.contains key then
        match value with
        | .str s => (rewrite_pathE s fromPre toPre).map Msg.str
        | .arr items => (rewritePathArrayE items fromPre toPre).map Msg.arr
        | other => rewrite_objectE other fromPre toPre
      else if key == pyStr "workspaceFolders" && isArrMsg value then
        match value with
        | .arr items => (rewriteListItemsE items fromPre toPre).map Msg.arr
        | other => rewrite_objectE other fromPre toPre
      else rewrite_objectE value fromPre toPre
    match newVal, rewriteDictItemsE rest fromPre toPre with
    | some v, some rs => some (.cons key v rs)
    | _, _ => none

def rewritePathArrayE (items : MsgList) (fromPre toPre : List Nat) : Option MsgList :=
  match items with
  | .nil => some .nil
  | .cons item rest =>
    let newItem :=
      match item with
      | .str s => (rewrite_pathE s fromPre toPre).map Msg.str
      | other => rewrite_objectE other fromPre toPre
    match newItem, rewritePathArrayE rest fromPre toPre with
    | some v, some rs => some (.cons v rs)
    | _, _ => none

def rewriteListItemsE (items : MsgList) (fromPre toPre : List Nat) : Option MsgList :=
  match items with
  | .nil => some .nil
  | .cons item rest =>
    match rewrite_objectE item fromPre toPre, rewriteListItemsE rest fromPre toPre with
    | some v, some rs => some (.cons v rs)
    | _, _ => none
end

/-- Decimal digits of n, most significant first, as ASCII code points; the
    fuel argument only bounds the recursion and is irrelevant above n. -/
def natToDigitsAux : Nat → Nat → List Nat
  | 0, _ => []
  | fuel + 1, n => if n < 10 then [48 + n] else natToDigitsAux fuel (n / 10) ++ [48 + n % 10]

/-- Decimal representation of a natural number, models str(n) for n at least 0. -/
def natToDigits (n : Nat) : List Nat := natToDigitsAux (n + 1) n

/-- Numeric value of a list of ASCII decimal digits. -/
def digitsValNat (ds : List Nat) : Nat := ds.foldl (fun a c => a * 10 + (c - 48)) 0

/-- Four lowercase hex digits of n below 0x10000, as json.dumps emits in
    backslash-u escapes. -/
def hex4Lower (n : Nat) : List Nat :=
  [hexLower (n / 4096), hexLower (n / 256 % 16), hexLower (n / 16 % 16), hexLower (n % 16)]

/-- json.dumps escaping of one character with ensure_ascii (the default):
    quote, backslash and the short control escapes, backslash-u for the other
    control and all non-ASCII characters, surrogate pairs beyond 0xFFFF. -/
def escapeCp (c : Nat) : List Nat :=
  if c = 34 then [92, 34]
  else if c = 92 then [92, 92]
  else if c = 8 then [92, 98]
  else if c = 9 then [92, 116]
  else if c = 10 then [92, 110]
  else if c = 12 then [92, 102]
  else if c = 13 then [92, 114]
  else if c < 32 then 92 :: 117 :: hex4Lower c
  else if c < 127 then [c]
  else if c < 0x10000 then 92 :: 117 :: hex4Lower c
  else
    (92 :: 117 :: hex4Lower (0xD800 + (c - 0x10000) / 0x400)) ++
      (92 :: 117 :: hex4Lower (0xDC00 + (c - 0x10000) % 0x400))

/-- Serialized body of a JSON string (without the surrounding quotes). -/
def dumpsStrBody (s : List Nat) : List Nat := (s.map escapeCp).flatten

/-- Serialized integer, decimal with optional leading minus, models repr of int. -/
def dumpsInt (n : Int) : List Nat :=
  if n < 0 then 45 :: natToDigits n.natAbs else natToDigits n.toNat

/-- Serialized object key including the closing quote and the colon separator
    of separators=(comma, colon). -/
def dumpsKey (k : List Nat) : List Nat := 34 :: (dumpsStrBody k ++ [34, 58])

mutual
/-- json.dumps(message, separators=(comma, colon)) with default ensure_ascii:
    compact serialization to ASCII code points. -/
def dumps : Msg → List Nat
  | .str s => 34 :: (dumpsStrBody s ++ [34])
  | .int n => dumpsInt n
  | .bool true => pyStr "true"
  | .bool false => pyStr "false"
  | .null => pyStr "null"
  | .arr items => 91 :: (dumpsArrBody items ++ [93])
  | .obj pairs => 123 :: (dumpsObjBody pairs ++ [125])

def dumpsArrBody : MsgList → List Nat
  | .nil => []
  | .cons v rest => dumps v ++ dumpsArrTail rest

def dumpsArrTail : MsgList → List Nat
  | .nil => []
  | .cons v rest => 44 :: (dumps v ++ dumpsArrTail rest)

def dumpsObjBody : MsgPairs → List Nat
  | .nil => []
  | .cons k v rest => dumpsKey k ++ (dumps v ++ dumpsObjTail rest)

def dumpsObjTail : MsgPairs → List Nat
  | .nil => []
  | .cons k v rest => 44 :: (dumpsKey k ++ (dumps v ++ dumpsObjTail rest))
end

/-- JSON whitespace as skipped by json.loads: space, tab, newline, carriage
    return. -/
def wsB (c : Nat) : Bool := c == 32 || c == 9 || c == 10 || c == 13

/-- Skip JSON whitespace. -/
def skipWs (s : List Nat) : List Nat := s.dropWhile wsB

/-- Head test used by the parser in place of character peeking. -/
def headIs : List Nat → Nat → Bool
  | c :: _, d => c == d
  | [], _ => false

/-- Maximal run of decimal digits, accumulating the value, models the digit
    part of the json scanner's number regex. -/
def parseDigits : List Nat → Nat → Nat × List Nat
  | c :: rest, acc =>
    if 48 ≤ c ∧ c ≤ 57 then parseDigits rest (acc * 10 + (c - 48)) else (acc, c :: rest)
  | [], acc => (acc, [])

/-- Unsigned integer part of a JSON number: a single zero, or a nonzero digit
    followed by a maximal digit run (the 0-or-1-to-9 alternative of the json
    number regex). -/
def parseJsonUInt : List Nat → Option (Nat × List Nat)
  | [] => none
  | c :: rest =>
    if c = 48 then some (0, rest)
    else if 49 ≤ c ∧ c ≤ 57 then some (parseDigits rest (c - 48))
    else none

/-- Does a fraction or exponent part follow (dot, e or E)?  The json scanner
    would parse a float there; floats are outside this integer model. -/
def numberTail : List Nat → Bool
  | c :: _ => c == 46 || c == 101 || c == 69
  | [] => false

/-- Integer JSON number, with optional leading minus.  Returns none both on a
    syntax error and on a float-shaped number (a model restriction: the json
    module would produce a float there). -/
def parseJsonNumber (s : List Nat) : Option (Int × List Nat) :=
  match s with
  | [] => none
  | c :: rest =>
    if c = 45 then
      match parseJsonUInt rest with
      | some (n, r) => if numberTail r then none else some (-(n : Int), r)
      | none => none
    else
      match parseJsonUInt s with
      | some (n, r) => if numberTail r then none else some ((n : Int), r)
      | none => none

/-- JSON string body parser, after the opening quote; models the strict
    py_scanstring: control characters are rejected, the eight short escapes and
    backslash-u (with surrogate-pair combining) are recognized, anything else
    after a backslash is an error.  The fuel only bounds the recursion (one
    source character per step) and is irrelevant beyond the character count. -/
def parseStringBody : Nat → List Nat → Option (List Nat × List Nat)
  | 0, _ => none
  | fuel + 1, s =>
    match s with
    | [] => none
    | c :: rest =>
      if c = 34 then some ([], rest)
      else if c = 92 then
        match rest with
        | [] => none
        | e :: r =>
          if e = 34 then (parseStringBody fuel r).map (fun p => (34 :: p.1, p.2))
          else if e = 92 then (parseStringBody fuel r).map (fun p => (92 :: p.1, p.2))
          else if e = 47 then (parseStringBody fuel r).map (fun p => (47 :: p.1, p.2))
          else if e = 98 then (parseStringBody fuel r).map (fun p => (8 :: p.1, p.2))
          else if e = 102 then (parseStringBody fuel r).map (fun p => (12 :: p.1, p.2))
          else if e = 110 then (parseStringBody fuel r).map (fun p => (10 :: p.1, p.2))
          else if e = 114 then (parseStringBody fuel r).map (fun p => (13 :: p.1, p.2))
          else if e = 116 then (parseStringBody fuel r).map (fun p => (9 :: p.1, p.2))
          else if e = 117 then
            match r with
            | h1 :: h2 :: h3 :: h4 :: r2 =>
              if isHexDigit h1 && isHexDigit h2 && isHexDigit h3 && isHexDigit h4 then
                let v := hexVal h1 * 4096 + hexVal h2 * 256 + hexVal h3 * 16 + hexVal h4
                if 0xD800 ≤ v ∧ v ≤ 0xDBFF then
                  match r2 with
                  | e2 :: r3 =>
                    if e2 = 92 then
                      match r3 with
                      | e3 :: r4 =>
                        if e3 = 117 then
                          match r4 with
                          | g1 :: g2 :: g3 :: g4 :: r5 =>
                            if isHexDigit g1 && isHexDigit g2 && isHexDigit g3 &&
                                isHexDigit g4 then
                              let w := hexVal g1 * 4096 + hexVal g2 * 256 +
                                hexVal g3 * 16 + hexVal g4
                              if 0xDC00 ≤ w ∧ w ≤ 0xDFFF then
                                (parseStringBody fuel r5).map
                                  (fun p =>
                                    ((0x10000 + (v - 0xD800) * 0x400 + (w - 0xDC00)) :: p.1,
                                      p.2))
                              else (parseStringBody fuel r2).map (fun p => (v :: p.1, p.2))
                            else none
                          | _ => none
                        else (parseStringBody fuel r2).map (fun p => (v :: p.1, p.2))
                      | [] => (parseStringBody fuel r2).map (fun p => (v :: p.1, p.2))
                    else (parseStringBody fuel r2).map (fun p => (v :: p.1, p.2))
                  | [] => (parseStringBody fuel r2).map (fun p => (v :: p.1, p.2))
                else (parseStringBody fuel r2).map (fun p => (v :: p.1, p.2))
              else none
            | _ => none
          else none
      else if c < 32 then none
      else (parseStringBody fuel rest).map (fun p => (c :: p.1, p.2))

mutual
/-- One JSON value at the head of the input (no leading whitespace), models the
    json scanner's scan_once dispatch; the fuel bounds container nesting and is
    irrelevant when large enough. -/
def parseValue : Nat → List Nat → Option (Msg × List Nat)
  | 0, _ => none
  | fuel + 1, s =>
    match s with
    | [] => none
    | c :: r =>
      if c = 34 then (parseStringBody (r.length + 1) r).map (fun p => (Msg.str p.1, p.2))
      else if c = 91 then
        let s1 := skipWs r
        if headIs s1 93 then some (Msg.arr MsgList.nil, s1.tail)
        else (parseArrItems fuel s1).map (fun p => (Msg.arr p.1, p.2))
      else if c = 123 then
        let s1 := skipWs r
        if headIs s1 125 then some (Msg.obj MsgPairs.nil, s1.tail)
        else (parseObjItems fuel s1).map (fun p => (Msg.obj p.1, p.2))
      else if startsWithL (pyStr "true") (c :: r) then some (Msg.bool true, r.drop 3)
      else if startsWithL (pyStr "false") (c :: r) then some (Msg.bool false, r.drop 4)
      else if startsWithL (pyStr "null") (c :: r) then some (Msg.null, r.drop 3)
      else (parseJsonNumber (c :: r)).map (fun p => (Msg.int p.1, p.2))

/-- Nonempty rest of a JSON array: one value, then comma-and-more or the
    closing bracket, whitespace skipped at the json module's positions. -/
def parseArrItems : Nat → List Nat → Option (MsgList × List Nat)
  | 0, _ => none
  | fuel + 1, s =>
    match parseValue fuel s with
    | none => none
    | some (v, r) =>
      let r1 := skipWs r
      if headIs r1 93 then some (MsgList.cons v MsgList.nil, r1.tail)
      else if headIs r1 44 then
        (parseArrItems fuel (skipWs r1.tail)).map (fun p => (MsgList.cons v p.1, p.2))
      else none

/-- Nonempty rest of a JSON object: a quoted key, colon, value, then
    comma-and-more or the closing brace. -/
def parseObjItems : Nat → List Nat → Option (MsgPairs × List Nat)
  | 0, _ => none
  | fuel + 1, s =>
    match s with
    | [] => none
    | c :: r =>
      if c = 34 then
        match parseStringBody (r.length + 1) r with
        | none => none
        | some (k, r2) =>
          let r3 := skipWs r2
          if headIs r3 58 then
            match parseValue fuel (skipWs r3.tail) with
            | none => none
            | some (v, r4) =>
              let r5 := skipWs r4
              if headIs r5 125 then some (MsgPairs.cons k v MsgPairs.nil, r5.tail)
              else if headIs r5 44 then
                (parseObjItems fuel (skipWs r5.tail)).map
                  (fun p => (MsgPairs.cons k v p.1, p.2))
              else none
          else none
      else none
end

/-- json.loads on a code-point string: skip leading whitespace, parse one
    value, skip trailing whitespace, reject trailing data.  The fuel passed to
    the parser exceeds any possible nesting depth of the input. -/
def json_loads (cps : List Nat) : Option Msg :=
  match parseValue (cps.length + 1) (skipWs cps) with
  | none => none
  | some (m, rest) => if skipWs rest = [] then some m else none

mutual
/-- Fuel sufficient for parseValue on the serialization of the message. -/
def costV : Msg → Nat
  | .arr items => 1 + costL items
  | .obj pairs => 1 + costP pairs
  | _ => 1

def costL : MsgList → Nat
  | .nil => 0
  | .cons v rest => 1 + max (costV v) (costL rest)

def costP : MsgPairs → Nat
  | .nil => 0
  | .cons _ v rest => 1 + max (costV v) (costP rest)
end

/-- Python bytes-stream readline: the first line up to and including its
    newline byte, and the rest; an empty result signals end of stream. -/
def readline : List Nat → List Nat × List Nat
  | [] => ([], [])
  | c :: rest =>
    if c = 10 then ([10], rest)
    else
      let p := readline rest
      (c :: p.1, p.2)

/-- Split a decoded header line at its first colon. -/
def splitColon : List Nat → List Nat × List Nat
  | [] => ([], [])
  | c :: rest =>
    if c = 58 then ([], rest)
    else
      let p := splitColon rest
      (c :: p.1, p.2)

/-- Python str.strip() whitespace (the ASCII part, which is all the header
    handling can meet). -/
def pyWs (c : Nat) : Bool := c == 32 || c == 9 || c == 10 || c == 13 || c == 12 || c == 11

/-- Python str.strip(). -/
def stripWs (s : List Nat) : List Nat := ((s.dropWhile pyWs).reverse.dropWhile pyWs).reverse

/-- Python str.lower() on ASCII letters (header keys are ASCII). -/
def lowerCp (c : Nat) : Nat := if 65 ≤ c ∧ c ≤ 90 then c + 32 else c

/-- Python str.lower(). -/
def lowerStr (s : List Nat) : List Nat := s.map lowerCp

/-- Python int(s) on a stripped decimal string with optional sign; none models
    ValueError.  (Underscore separators and non-ASCII digits, which int also
    accepts, cannot occur in this protocol and are not modelled.) -/
def pyIntParse (s : List Nat) : Option Int :=
  match stripWs s with
  | [] => none
  | c :: ds =>
    if c = 43 then
      if ds ≠ [] ∧ ds.all (fun d => 48 ≤ d && d ≤ 57) then some ((digitsValNat ds : Int))
      else none
    else if c = 45 then
      if ds ≠ [] ∧ ds.all (fun d => 48 ≤ d && d ≤ 57) then some (-(digitsValNat ds : Int))
      else none
    else if (c :: ds).all (fun d => 48 ≤ d && d ≤ 57) then
      some ((digitsValNat (c :: ds) : Int))
    else none

/-- Header section reader of JsonRpcProxy.read_message (source lines 230-239):
    read lines until the blank CRLF line, collecting colon-split, stripped,
    lower-cased headers (most recent first, as dict update order makes lookups
    see); none models the silent `return None` on end of stream.  The fuel
    bounds the recursion; one byte is consumed per line so the stream length
    plus one is always sufficient. -/
def readHeaders : Nat → List Nat → List (List Nat × List Nat) →
    Option (List (List Nat × List Nat) × List Nat)
  | 0, _, _ => none
  | fuel + 1, stream, hdrs =>
    let p := readline stream
    if p.1 = [] then none
    else if p.1 = [13, 10] then some (hdrs, p.2)
    else if p.1.contains 58 then
      let cps := utf8DecodeReplace p.1
      let kv := splitColon cps
      readHeaders fuel p.2 ((lowerStr (stripWs kv.1), stripWs kv.2) :: hdrs)
    else readHeaders fuel p.2 hdrs

/-- Case-insensitive-free dict lookup on the collected headers (keys are
    already lower-cased; most recent entry wins, as in a dict). -/
def headerLookup (hdrs : List (List Nat × List Nat)) (k : List Nat) : Option (List Nat) :=
  (hdrs.find? (fun p => p.1 == k)).map (fun p => p.2)

/-- Outcome of JsonRpcProxy.read_message.  The source returns None both at end
    of stream and on a malformed message, but the two exits are observably
    distinct: every framing-error exit emits a logger warning or error
    (source lines 244, 250, 257, 260) while the end-of-stream exit at line 234
    is silent.  The constructors record that distinction. -/
inductive ReadResult where
  | success : Msg → ReadResult
  | endOfStream : ReadResult
  | framingError : ReadResult
  deriving DecidableEq

/-- JsonRpcProxy.read_message (source lines 217-261) on a byte stream, paired
    with the unconsumed rest of the stream. -/
def read_message (stream : List Nat) : ReadResult × List Nat :=
  match readHeaders (stream.length + 1) stream [] with
  | none => (ReadResult.endOfStream, [])
  | some (hdrs, rest) =>
    let lenVal : Option Int :=
      match headerLookup hdrs (pyStr "content-length") with
      | none => some 0
      | some v => pyIntParse v
    match lenVal with
    | none => (ReadResult.framingError, rest)
    | some n =>
      if n = 0 then (ReadResult.framingError, rest)
      else
        let body := if n < 0 then rest else rest.take n.toNat
        let remaining := if n < 0 then [] else rest.drop n.toNat
        if (body.length : Int) = n then
          match utf8DecodeStrict body with
          | none => (ReadResult.framingError, remaining)
          | some cps =>
            match json_loads cps with
            | none => (ReadResult.framingError, remaining)
            | some m => (ReadResult.success m, remaining)
        else (ReadResult.framingError, remaining)

/-- The byte sequence emitted by JsonRpcProxy.write_message (source lines
    263-285) for one message on a working stream: the Content-Length header,
    the blank line, then exactly that many UTF-8 body bytes. -/
def writeBytes (m : Msg) : List Nat :=
  utf8Encode (pyStr "Content-Length: " ++ natToDigits (utf8Encode (dumps m)).length
      ++ [13, 10, 13, 10])
    ++ utf8Encode (dumps m)

/-- An output stream: the bytes written so far, whether writes raise an I/O
    error, and how many write errors have been logged. -/
structure OutStream where
  contents : List Nat
  broken : Bool
  errorsLogged : Nat
  deriving DecidableEq

/-- JsonRpcProxy.write_message: serialize and write header and body; any
    exception is caught inside the method and only logged (source lines
    284-285), so a failed write leaves the stream contents unchanged and the
    loop none the wiser. -/
def write_message (st : OutStream) (m : Msg) : OutStream :=
  if st.broken then { st with errorsLogged := st.errorsLogged + 1 }
  else { st with contents := st.contents ++ writeBytes m }

/-- The literal key id whose presence marks a request. -/
def keyId : List Nat := pyStr "id"

/-- Substring test, models the Python `in` operator on str. -/
def containsSub (needle : List Nat) : List Nat → Bool
  | [] => needle.isEmpty
  | c :: rest => startsWithL needle (c :: rest) || containsSub needle rest

/-- Key membership for the Python `in` operator on a dict. -/
def pairsHasKey : MsgPairs → Bool
  | .nil => false
  | .cons k _ rest => k == keyId || pairsHasKey rest

/-- Element equality with the string id for the `in` operator on a list. -/
def itemsHasIdStr : MsgList → Bool
  | .nil => false
  | .cons (.str s) rest => s == keyId || itemsHasIdStr rest
  | .cons _ rest => itemsHasIdStr rest

/-- The test `id in client_msg` at source line 328: key membership on a dict,
    element membership on a list, substring on a str; none models the
    TypeError Python raises on the other scalars, which the run loop's except
    clause would turn into loop exit. -/
def hasId : Msg → Option Bool
  | .obj pairs => some (pairsHasKey pairs)
  | .arr items => some (itemsHasIdStr items)
  | .str s => some (containsSub keyId s)
  | _ => none

/-- JsonRpcProxy.process_message: pick the prefix pair from the direction and
    rewrite (the source's HOST_ROOT and CONTAINER_ROOT globals are passed
    explicitly). -/
def process_message (hostRoot containerRoot : List Nat) (toContainer : Bool) (m : Msg) : Msg :=
  if toContainer then rewrite_object m hostRoot containerRoot
  else rewrite_object m containerRoot hostRoot

/-- Why the proxy loop stopped iterating. -/
inductive ExitReason where
  | clientNone : ExitReason
  | childNone : ExitReason
  | idTypeError : ExitReason
  | fuelOut : ExitReason
  deriving DecidableEq

/-- The mutable state threaded through the proxy loop: the two input byte
    streams still unread, the two output streams, and a count of client
    messages read and forwarded. -/
structure ProxyState where
  clientIn : List Nat
  childOut : List Nat
  childIn : OutStream
  clientOut : OutStream
  msgsHandled : Nat
  deriving DecidableEq

/-- JsonRpcProxy.run (source lines 311-348), one while-iteration per fuel unit:
    read a client message (a None from read_message breaks the loop), rewrite
    toward the container and write to the child, and for a request block on one
    child message (a None breaks the loop), rewrite toward the host and write
    to the client.  Each successful client read consumes at least one byte, so
    fuel beyond the client stream length is never exhausted. -/
def runLoop (hostRoot containerRoot : List Nat) : Nat → ProxyState → ProxyState × ExitReason
  | 0, st => (st, ExitReason.fuelOut)
  | fuel + 1, st =>
    match read_message st.clientIn with
    | (ReadResult.success clientMsg, restClient) =>
      let st1 : ProxyState :=
        { st with clientIn := restClient, msgsHandled := st.msgsHandled + 1 }
      let serverMsg := process_message hostRoot containerRoot true clientMsg
      let st2 : ProxyState := { st1 with childIn := write_message st1.childIn serverMsg }
      match hasId clientMsg with
      | none => (st2, ExitReason.idTypeError)
      | some false => runLoop hostRoot containerRoot fuel st2
      | some true =>
        match read_message st2.childOut with
        | (ReadResult.success resp, restChild) =>
          let clientResp := process_message hostRoot containerRoot false resp
          let st3 : ProxyState :=
            { st2 with
              childOut := restChild
              clientOut := write_message st2.clientOut clientResp }
          runLoop hostRoot containerRoot fuel st3
        | (_, _) => (st2, ExitReason.childNone)
    | (_, _) => (st, ExitReason.clientNone)

/-- Result of the whole run method: the final state, why the loop stopped, and
    the fact that shutdown ran (the finally clause at source line 347 invokes
    self.shutdown() on every exit path). -/
structure RunOutcome where
  final : ProxyState
  reason : ExitReason
  shutdownInvoked : Bool
  deriving DecidableEq

/-- JsonRpcProxy.run from start to the finally clause. -/
def runProxy (hostRoot containerRoot : List Nat) (st : ProxyState) : RunOutcome :=
  let p := runLoop hostRoot containerRoot (st.clientIn.length + 1) st
  { final := p.1, reason := p.2, shutdownInvoked := true }

/-- The characters that may legally follow a serialized value inside a larger
    serialization: nothing, or a comma, closing bracket or closing brace. -/
def delimOk : List Nat → Bool
  | [] => true
  | c :: _ => c == 44 || c == 93 || c == 125

theorem startsWithL_iff (p s : List Nat) : startsWithL p s = true ↔ p <+: s := by
  induction p generalizing s with
  | nil => simp [startsWithL]
  | cons a ps ih =>
    cases s with
    | nil => simp [startsWithL]
    | cons c cs =>
      simp only [startsWithL, Bool.and_eq_true, beq_iff_eq, ih, List.cons_prefix_cons]

theorem startsWithL_append (p r : List Nat) : startsWithL p (p ++ r) = true :=
  (startsWithL_iff _ _).mpr (List.prefix_append p r)

theorem startsWithL_eq_append {p s : List Nat} (h : startsWithL p s = true) :
    p ++ s.drop p.length = s :=
  (List.prefix_iff_eq_append).mp ((startsWithL_iff _ _).mp h)

theorem startsWithL_trans {a b c : List Nat} (h1 : startsWithL a b = true)
    (h2 : startsWithL b c = true) : startsWithL a c = true :=
  (startsWithL_iff _ _).mpr (((startsWithL_iff _ _).mp h1).trans ((startsWithL_iff _ _).mp h2))

theorem startsWithL_marker3_marker {v : List Nat}
    (h : startsWithL fileMarker3 v = true) : startsWithL fileMarker v = true := by
  refine startsWithL_trans ?_ h
  decide

/-- A string whose first character is a slash matches neither file-URI marker. -/
theorem startsWithL_slash_not_file {s : List Nat} (h : startsWithL (pyStr "/") s = true) :
    startsWithL fileMarker s = false ∧ startsWithL fileMarker3 s = false := by
  have h47 : pyStr "/" = [47] := by decide
  have hfm : fileMarker = 102 :: pyStr "ile://" := by decide
  have hfm3 : fileMarker3 = 102 :: pyStr "ile:///" := by decide
  rw [h47] at h
  cases s with
  | nil => simp [startsWithL] at h
  | cons c cs =>
    simp only [startsWithL, Bool.and_eq_true, beq_iff_eq] at h
    rw [hfm, hfm3]
    simp [startsWithL, ← h.1]

/-- C1: for every path string p that starts with fromPrefix, with both prefixes
    absolute paths (starting with a slash) as the root mapping guarantees,
    rewriting p from fromPrefix to toPrefix and back returns p: rewrite_path is
    inverted by the opposite-direction rewrite.  On a plain absolute path no
    percent encode/decode cycle is involved, so the claim's proviso about
    characters surviving two encode/decode cycles is satisfied vacuously. -/
theorem claim_C1_rewrite_path_roundtrip (p f t : List Nat)
    (hp : startsWithL f p = true)
    (hf : startsWithL (pyStr "/") f = true)
    (ht : startsWithL (pyStr "/") t = true) :
    rewrite_path (rewrite_path p f t) t f = p := by
  have hpS : startsWithL (pyStr "/") p = true := startsWithL_trans hf hp
  obtain ⟨h1, h2⟩ := startsWithL_slash_not_file hpS
  have hqS : startsWithL (pyStr "/") (t ++ p.drop f.length) = true :=
    startsWithL_trans ht (startsWithL_append t _)
  obtain ⟨h3, h4⟩ := startsWithL_slash_not_file hqS
  have e1 : rewrite_path p f t = t ++ p.drop f.length := by
    simp only [rewrite_path, h1, h2, hp, Bool.false_eq_true, if_false, if_true]
  have e2 : rewrite_path (t ++ p.drop f.length) t f = f ++ (t ++ p.drop f.length).drop t.length := by
    simp only [rewrite_path, h3, h4, startsWithL_append, Bool.false_eq_true, if_false, if_true]
  rw [e1, e2, List.drop_left, startsWithL_eq_append hp]

theorem claim_C1_witness :
    startsWithL (pyStr "/work/host") (pyStr "/work/host/src/a.py") = true ∧
    startsWithL (pyStr "/") (pyStr "/work/host") = true ∧
    startsWithL (pyStr "/") (pyStr "/work/container") = true ∧
    rewrite_path
      (rewrite_path (pyStr "/work/host/src/a.py") (pyStr "/work/host") (pyStr "/work/container"))
      (pyStr "/work/container") (pyStr "/work/host") = pyStr "/work/host/src/a.py" :=
  ⟨by decide, by decide, by decide,
    claim_C1_rewrite_path_roundtrip (pyStr "/work/host/src/a.py") (pyStr "/work/host")
      (pyStr "/work/container") (by decide) (by decide) (by decide)⟩

/-- C2: rewrite_path on the exact URI file:---work-host-src-a.py with prefixes
    /work/host and /work/container yields the container URI; and on the
    percent-encoded URI of "/work/host/my file.py" it decodes, replaces the
    prefix and re-encodes (slash kept literal), yielding the percent-encoded
    URI of "/work/container/my file.py". -/
theorem claim_C2_rewrite_path_examples :
    rewrite_path (pyStr "file:///work/host/src/a.py") (pyStr "/work/host")
      (pyStr "/work/container") = pyStr "file:///work/container/src/a.py" ∧
    rewrite_path (fileMarker ++ encode_uri_component (pyStr "/work/host/my file.py"))
      (pyStr "/work/host") (pyStr "/work/container")
      = fileMarker ++ encode_uri_component (pyStr "/work/container/my file.py") := by
  constructor <;> decide

/-- C10: rewrite_path is extensionally equal to the same function with the
    dedicated three-slash branch (source lines 104-115) deleted: every string
    beginning with the three-slash marker already satisfies the two-slash test,
    which keeps the third slash as the first character of the extracted path.
    Moreover the dead branch body, if it were reached, strips that slash and
    hence fails to match an absolute fromPrefix, as the final conjunct shows on
    a concrete input. -/
theorem claim_C10_dead_branch :
    (∀ value fromPre toPre : List Nat,
        rewrite_path value fromPre toPre = rewrite_path_nodead value fromPre toPre) ∧
    (∀ value : List Nat, startsWithL fileMarker3 value = true →
        startsWithL fileMarker value = true ∧ value.drop 7 = 47 :: value.drop 8) ∧
    rewrite_path_slash3 (pyStr "file:///work/host/a.py") (pyStr "/work/host")
        (pyStr "/work/container") = pyStr "file:///work/host/a.py" := by
  refine ⟨?_, ?_, by decide⟩
  · intro value fromPre toPre
    by_cases h : startsWithL fileMarker value = true
    · simp only [rewrite_path, rewrite_path_nodead, h, if_true]
    · have h3 : ¬ startsWithL fileMarker3 value = true := fun hc => h (startsWithL_marker3_marker hc)
      simp only [rewrite_path, rewrite_path_nodead, h, h3, Bool.false_eq_true, if_false,
        eq_self_iff_true]
  · intro value h
    have hm : startsWithL fileMarker value = true := startsWithL_marker3_marker h
    refine ⟨hm, ?_⟩
    have he : fileMarker3 ++ value.drop 8 = value := by
      have := startsWithL_eq_append h
      simpa using this
    have hlit : fileMarker3 = [102, 105, 108, 101, 58, 47, 47, 47] := by decide
    conv_lhs => rw [← he, hlit]
    rfl

theorem claim_C10_witness :
    startsWithL fileMarker (pyStr "file:///w") = true ∧
    (pyStr "file:///w").drop 7 = 47 :: (pyStr "file:///w").drop 8 :=
  claim_C10_dead_branch.2.1 (pyStr "file:///w") (by decide)

/-- rewrite_path leaves a string alone when it matches neither the file-URI
    marker nor fromPrefix. -/
theorem rewrite_path_id {s fromPre toPre : List Nat}
    (h1 : startsWithL fromPre s = false) (h2 : startsWithL fileMarker s = false) :
    rewrite_path s fromPre toPre = s := by
  have h3 : startsWithL fileMarker3 s = false := by
    by_contra hc
    have := startsWithL_marker3_marker (by simpa using Bool.of_not_eq_false hc)
    rw [h2] at this
    exact Bool.false_ne_true this
  simp only [rewrite_path, h1, h2, h3, Bool.false_eq_true, if_false]

mutual
theorem pathFree_rewrite_id : ∀ (m : Msg) (f t : List Nat), pathFree f m = true →
    rewrite_object m f t = m
  | .str s, f, t, h => by
    simp only [pathFree, Bool.and_eq_true, Bool.not_eq_true'] at h
    simp only [rewrite_object, h.1, h.2, Bool.or_self, Bool.false_eq_true, if_false]
  | .int _, _, _, _ => rfl
  | .bool _, _, _, _ => rfl
  | .null, _, _, _ => rfl
  | .arr items, f, t, h =>
    show Msg.arr (rewriteListItems items f t) = Msg.arr items from
      congrArg Msg.arr (pathFreeL_rewrite_id items f t h)
  | .obj pairs, f, t, h =>
    show Msg.obj (rewriteDictItems pairs f t) = Msg.obj pairs from
      congrArg Msg.obj (pathFreeP_rewrite_id pairs f t h)

theorem pathFreeL_rewrite_id : ∀ (l : MsgList) (f t : List Nat), pathFreeL f l = true →
    rewriteListItems l f t = l
  | .nil, _, _, _ => rfl
  | .cons m rest, f, t, h => by
    have hm : pathFree f m = true ∧ pathFreeL f rest = true := by
      simpa [pathFreeL, Bool.and_eq_true] using h
    show MsgList.cons (rewrite_object m f t) (rewriteListItems rest f t) = MsgList.cons m rest
    rw [pathFree_rewrite_id m f t hm.1, pathFreeL_rewrite_id rest f t hm.2]

theorem pathFreeA_rewrite_id : ∀ (l : MsgList) (f t : List Nat), pathFreeL f l = true →
    rewritePathArray l f t = l
  | .nil, _, _, _ => rfl
  | .cons (.str s) rest, f, t, h => by
    have hm : pathFree f (Msg.str s) = true ∧ pathFreeL f rest = true := by
      simpa [pathFreeL, Bool.and_eq_true] using h
    have hs : startsWithL f s = false ∧ startsWithL fileMarker s = false := by
      simpa [pathFree, Bool.and_eq_true, Bool.not_eq_true'] using hm.1
    show MsgList.cons (Msg.str (rewrite_path s f t)) (rewritePathArray rest f t)
        = MsgList.cons (Msg.str s) rest
    rw [rewrite_path_id hs.1 hs.2, pathFreeA_rewrite_id rest f t hm.2]
  | .cons (.int n) rest, f, t, h => by
    have hm : pathFreeL f rest = true := by simpa [pathFreeL, pathFree] using h
    show MsgList.cons (rewrite_object (Msg.int n) f t) (rewritePathArray rest f t)
        = MsgList.cons (Msg.int n) rest
    rw [pathFreeA_rewrite_id rest f t hm]; rfl
  | .cons (.bool b) rest, f, t, h => by
    have hm : pathFreeL f rest = true := by simpa [pathFreeL, pathFree] using h
    show MsgList.cons (rewrite_object (Msg.bool b) f t) (rewritePathArray rest f t)
        = MsgList.cons (Msg.bool b) rest
    rw [pathFreeA_rewrite_id rest f t hm]; rfl
  | .cons .null rest, f, t, h => by
    have hm : pathFreeL f rest = true := by simpa [pathFreeL, pathFree] using h
    show MsgList.cons (rewrite_object Msg.null f t) (rewritePathArray rest f t)
        = MsgList.cons Msg.null rest
    rw [pathFreeA_rewrite_id rest f t hm]; rfl
  | .cons (.arr items) rest, f, t, h => by
    have hm : pathFreeL f items = true ∧ pathFreeL f rest = true := by
      simpa [pathFreeL, pathFree, Bool.and_eq_true] using h
    show MsgList.cons (rewrite_object (Msg.arr items) f t) (rewritePathArray rest f t)
        = MsgList.cons (Msg.arr items) rest
    rw [pathFreeA_rewrite_id rest f t hm.2]
    simp only [rewrite_object, pathFreeL_rewrite_id items f t hm.1]
  | .cons (.obj pairs) rest, f, t, h => by
    have hm : pathFreeP f pairs = true ∧ pathFreeL f rest = true := by
      simpa [pathFreeL, pathFree, Bool.and_eq_true] using h
    show MsgList.cons (rewrite_object (Msg.obj pairs) f t) (rewritePathArray rest f t)
        = MsgList.cons (Msg.obj pairs) rest
    rw [pathFreeA_rewrite_id rest f t hm.2]
    simp only [rewrite_object, pathFreeP_rewrite_id pairs f t hm.1]

theorem pathFreeP_rewrite_id : ∀ (ps : MsgPairs) (f t : List Nat), pathFreeP f ps = true →
    rewriteDictItems ps f t = ps
  | .nil, _, _, _ => rfl
  | .cons k (.str s) rest, f, t, h => by
    have hm : pathFree f (Msg.str s) = true ∧ pathFreeP f rest = true := by
      simpa [pathFreeP, Bool.and_eq_true] using h
    have hs : startsWithL f s = false ∧ startsWithL fileMarker s = false := by
      simpa [pathFree, Bool.and_eq_true, Bool.not_eq_true'] using hm.1
    have hr : rewriteDictItems rest f t = rest := pathFreeP_rewrite_id rest f t hm.2
    simp only [rewriteDictItems, hr, isArrMsg, Bool.and_false, Bool.false_eq_true, if_false,
      rewrite_object, hs.1, hs.2, Bool.or_self, rewrite_path_id hs.1 hs.2, ite_self]
  | .cons k (.int n) rest, f, t, h => by
    have hm : pathFreeP f rest = true := by simpa [pathFreeP, pathFree] using h
    have hr : rewriteDictItems rest f t = rest := pathFreeP_rewrite_id rest f t hm
    simp only [rewriteDictItems, hr, isArrMsg, Bool.and_false, Bool.false_eq_true, if_false,
      rewrite_object, ite_self]
  | .cons k (.bool b) rest, f, t, h => by
    have hm : pathFreeP f rest = true := by simpa [pathFreeP, pathFree] using h
    have hr : rewriteDictItems rest f t = rest := pathFreeP_rewrite_id rest f t hm
    simp only [rewriteDictItems, hr, isArrMsg, Bool.and_false, Bool.false_eq_true, if_false,
      rewrite_object, ite_self]
  | .cons k .null rest, f, t, h => by
    have hm : pathFreeP f rest = true := by simpa [pathFreeP, pathFree] using h
    have hr : rewriteDictItems rest f t = rest := pathFreeP_rewrite_id rest f t hm
    simp only [rewriteDictItems, hr, isArrMsg, Bool.and_false, Bool.false_eq_true, if_false,
      rewrite_object, ite_self]
  | .cons k (.arr items) rest, f, t, h => by
    have hm : pathFreeL f items = true ∧ pathFreeP f rest = true := by
      simpa [pathFreeP, pathFree, Bool.and_eq_true] using h
    have hr : rewriteDictItems rest f t = rest := pathFreeP_rewrite_id rest f t hm.2
    have ha : rewritePathArray items f t = items := pathFreeA_rewrite_id items f t hm.1
    have hl : rewriteListItems items f t = items := pathFreeL_rewrite_id items f t hm.1
    simp only [rewriteDictItems, hr, rewrite_object, ha, hl, ite_self]
  | .cons k (.obj pairs) rest, f, t, h => by
    have hm : pathFreeP f pairs = true ∧ pathFreeP f rest = true := by
      simpa [pathFreeP, pathFree, Bool.and_eq_true] using h
    have hr : rewriteDictItems rest f t = rest := pathFreeP_rewrite_id rest f t hm.2
    have hp : rewriteDictItems pairs f t = pairs := pathFreeP_rewrite_id pairs f t hm.1
    simp only [rewriteDictItems, hr, isArrMsg, Bool.and_false, Bool.false_eq_true, if_false,
      rewrite_object, hp, ite_self]
end

/-- C5: rewrite_object is the identity on every message that contains no
    path-like string, that is, no string starting with fromPrefix or with the
    file-URI marker. -/
theorem claim_C5_identity_on_unrelated (m : Msg) (fromPre toPre : List Nat)
    (h : pathFree fromPre m = true) : rewrite_object m fromPre toPre = m :=
  pathFree_rewrite_id m fromPre toPre h

theorem claim_C5_witness :
    pathFree (pyStr "/work/host")
      (Msg.obj (mPairs
        [(pyStr "method", Msg.str (pyStr "initialize")),
         (pyStr "params", Msg.obj (mPairs
           [(pyStr "uri", Msg.str (pyStr "not-a-path")),
            (pyStr "items", Msg.arr (mList [Msg.int 1, Msg.bool true, Msg.null])),
            (pyStr "count", Msg.int 3)]))])) = true ∧
    rewrite_object
      (Msg.obj (mPairs
        [(pyStr "method", Msg.str (pyStr "initialize")),
         (pyStr "params", Msg.obj (mPairs
           [(pyStr "uri", Msg.str (pyStr "not-a-path")),
            (pyStr "items", Msg.arr (mList [Msg.int 1, Msg.bool true, Msg.null])),
            (pyStr "count", Msg.int 3)]))]))
      (pyStr "/work/host") (pyStr "/work/container")
      = Msg.obj (mPairs
        [(pyStr "method", Msg.str (pyStr "initialize")),
         (pyStr "params", Msg.obj (mPairs
           [(pyStr "uri", Msg.str (pyStr "not-a-path")),
            (pyStr "items", Msg.arr (mList [Msg.int 1, Msg.bool true, Msg.null])),
            (pyStr "count", Msg.int 3)]))]) :=
  ⟨by decide, claim_C5_identity_on_unrelated _ _ _ (by decide)⟩

/-- C7: rewriting a mapping touches only path-valued fields: the uri field is
    rewritten, the non-path field and the key order are preserved; and in a
    sequence of workspace-folder mappings only the uri fields change while each
    name field is left verbatim. -/
theorem claim_C7_mapping_examples :
    rewrite_object
      (Msg.obj (mPairs
        [(pyStr "uri", Msg.str (pyStr "file:///work/host/x.py")),
         (pyStr "otherField", Msg.int 42)]))
      (pyStr "/work/host") (pyStr "/work/container")
      = Msg.obj (mPairs
        [(pyStr "uri", Msg.str (pyStr "file:///work/container/x.py")),
         (pyStr "otherField", Msg.int 42)]) ∧
    rewrite_object
      (Msg.obj (mPairs
        [(pyStr "workspaceFolders", Msg.arr (mList
          [Msg.obj (mPairs
            [(pyStr "uri", Msg.str (pyStr "file:///work/host/projA")),
             (pyStr "name", Msg.str (pyStr "projA"))]),
           Msg.obj (mPairs
            [(pyStr "uri", Msg.str (pyStr "file:///work/host/projB")),
             (pyStr "name", Msg.str (pyStr "projB"))])]))]))
      (pyStr "/work/host") (pyStr "/work/container")
      = Msg.obj (mPairs
        [(pyStr "workspaceFolders", Msg.arr (mList
          [Msg.obj (mPairs
            [(pyStr "uri", Msg.str (pyStr "file:///work/container/projA")),
             (pyStr "name", Msg.str (pyStr "projA"))]),
           Msg.obj (mPairs
            [(pyStr "uri", Msg.str (pyStr "file:///work/container/projB")),
             (pyStr "name", Msg.str (pyStr "projB"))])]))]) := by
  constructor <;> decide

theorem scalarStr_mem {s : List Nat} (h : scalarStr s = true) {c : Nat} (hc : c ∈ s) :
    scalarCp c = true := by
  simp only [scalarStr, List.all_eq_true] at h
  exact h c hc

theorem scalarStr_drop {s : List Nat} (h : scalarStr s = true) (n : Nat) :
    scalarStr (s.drop n) = true := by
  simp only [scalarStr, List.all_eq_true] at h ⊢
  exact fun c hc => h c (List.mem_of_mem_drop hc)

theorem scalarStr_append {a b : List Nat} (ha : scalarStr a = true) (hb : scalarStr b = true) :
    scalarStr (a ++ b) = true := by
  simp only [scalarStr] at ha hb ⊢
  simp [List.all_append, ha, hb]

/-- quote never raises on a string of Unicode scalar values: the exception
    propagating model agrees with the total encoder there. -/
theorem encode_uri_componentE_eq : ∀ (s : List Nat), scalarStr s = true →
    encode_uri_componentE s = some (encode_uri_component s)
  | [], _ => by simp [encode_uri_componentE, encode_uri_component]
  | c :: rest, h => by
    have hc : scalarCp c = true := scalarStr_mem h (List.mem_cons_self c rest)
    have hrest : scalarStr rest = true := by
      simp only [scalarStr, List.all_eq_true] at h ⊢
      exact fun x hx => h x (List.mem_cons_of_mem _ hx)
    have hrec := encode_uri_componentE_eq rest hrest
    have hquote : quoteCpE c =
        some (if quoteSafe c then [c] else ((utf8EncodeCp c).map pctByte).flatten) := by
      unfold quoteCpE
      rw [if_neg]
      simp only [scalarCp, Bool.or_eq_true, decide_eq_true_eq, Bool.and_eq_true] at hc
      simp only [Bool.and_eq_true, decide_eq_true_eq, not_and]
      omega
    simp only [encode_uri_componentE]
    rw [hrec, hquote]
    simp [encode_uri_component]

/-- The literal code points that unquote passes through are characters of its
    input. -/
theorem pctTokens_lit (s : List Nat) : ∀ c, PctTok.lit c ∈ pctTokens s → c ∈ s := by
  induction s using pctTokens.induct with
  | case1 => simp [pctTokens]
  | case2 h l rest hhex ih =>
    intro c hm
    rw [pctTokens, if_pos hhex] at hm
    rcases List.mem_cons.mp hm with h1 | h1
    · simp at h1
    · exact List.mem_cons_of_mem _ (List.mem_cons_of_mem _ (List.mem_cons_of_mem _ (ih c h1)))
  | case3 h l rest hhex ih =>
    intro c hm
    rw [pctTokens, if_neg hhex] at hm
    rcases List.mem_cons.mp hm with h1 | h1
    · simp at h1
      simp [h1]
    · exact List.mem_cons_of_mem _ (ih c h1)
  | case4 c0 rest hne ih =>
    intro c hm
    rw [pctTokens.eq_def] at hm
    split at hm
    · simp_all
    · simp_all
    · rename_i cD restD hD heq
      injection heq with he1 he2
      subst he1
      subst he2
      rcases List.mem_cons.mp hm with h1 | h1
      · simp at h1
        simp [h1]
      · exact List.mem_cons_of_mem _ (ih c h1)

theorem litHyp_tail {t : PctTok} {rest : List PctTok}
    (h : ∀ c, PctTok.lit c ∈ t :: rest → scalarCp c = true) :
    ∀ c, PctTok.lit c ∈ rest → scalarCp c = true :=
  fun c hc => h c (List.mem_cons_of_mem _ hc)

theorem litHyp_byte {b : Nat} {rest : List PctTok}
    (h : ∀ c, PctTok.lit c ∈ rest → scalarCp c = true) :
    ∀ c, PctTok.lit c ∈ PctTok.byte b :: rest → scalarCp c = true := by
  intro c hc
  rcases List.mem_cons.mp hc with h1 | h1
  · cases h1
  · exact h c h1

set_option maxRecDepth 4096

theorem cont2ok_bounds {b b2 : Nat} (h : cont2ok b b2 = true) :
    0x80 ≤ b2 ∧ b2 ≤ 0xBF ∧ (b = 0xE0 → 0xA0 ≤ b2) ∧ (b = 0xED → b2 ≤ 0x9F) ∧
    (b = 0xF0 → 0x90 ≤ b2) ∧ (b = 0xF4 → b2 ≤ 0x8F) := by
  unfold cont2ok at h
  by_cases h0 : b = 0xE0
  · rw [if_pos (by simp [h0])] at h
    simp only [Bool.and_eq_true, decide_eq_true_eq] at h
    subst h0
    omega
  · rw [if_neg (by simp [h0])] at h
    by_cases h1 : b = 0xED
    · rw [if_pos (by simp [h1])] at h
      simp only [Bool.and_eq_true, decide_eq_true_eq] at h
      subst h1
      omega
    · rw [if_neg (by simp [h1])] at h
      by_cases h2 : b = 0xF0
      · rw [if_pos (by simp [h2])] at h
        simp only [Bool.and_eq_true, decide_eq_true_eq] at h
        subst h2
        omega
      · rw [if_neg (by simp [h2])] at h
        by_cases h3 : b = 0xF4
        · rw [if_pos (by simp [h3])] at h
          simp only [Bool.and_eq_true, decide_eq_true_eq] at h
          subst h3
          omega
        · rw [if_neg (by simp [h3])] at h
          simp only [isCont, Bool.and_eq_true, decide_eq_true_eq] at h
          omega

theorem isCont_bounds {b : Nat} (h : isCont b = true) : 0x80 ≤ b ∧ b ≤ 0xBF := by
  simpa [isCont, Bool.and_eq_true, decide_eq_true_eq] using h

mutual
theorem utf8FromToks_scalar : ∀ (fuel : Nat) (toks : List PctTok),
    (∀ c, PctTok.lit c ∈ toks → scalarCp c = true) →
    ∀ x ∈ utf8FromToks fuel toks, scalarCp x = true
  | 0, toks, _ => by simp [utf8FromToks]
  | _ + 1, [], _ => by simp [utf8FromToks]
  | fuel + 1, .lit c :: rest, h => by
    intro x hx
    rw [utf8FromToks] at hx
    rcases List.mem_cons.mp hx with rfl | hx
    · exact h x (List.mem_cons_self _ _)
    · exact utf8FromToks_scalar fuel rest (litHyp_tail h) x hx
  | fuel + 1, .byte b :: rest, h => by
    intro x hx
    rw [utf8FromToks] at hx
    have hrest := litHyp_tail h
    by_cases h1 : b < 0x80
    · rw [if_pos h1] at hx
      rcases List.mem_cons.mp hx with rfl | hx
      · simp only [scalarCp, Bool.or_eq_true, decide_eq_true_eq, Bool.and_eq_true]
        omega
      · exact utf8FromToks_scalar fuel rest hrest x hx
    · rw [if_neg h1] at hx
      by_cases h2 : (0xC2 ≤ b && b ≤ 0xDF) = true
      · rw [if_pos h2] at hx
        simp only [Bool.and_eq_true, decide_eq_true_eq] at h2
        exact utf8Toks2_scalar fuel b rest h2.2 hrest x hx
      · rw [if_neg h2] at hx
        by_cases h3 : (0xE0 ≤ b && b ≤ 0xEF) = true
        · rw [if_pos h3] at hx
          simp only [Bool.and_eq_true, decide_eq_true_eq] at h3
          exact utf8Toks3_scalar fuel b rest h3.1 h3.2 hrest x hx
        · rw [if_neg h3] at hx
          by_cases h4 : (0xF0 ≤ b && b ≤ 0xF4) = true
          · rw [if_pos h4] at hx
            simp only [Bool.and_eq_true, decide_eq_true_eq] at h4
            exact utf8Toks4_scalar fuel b rest h4.1 h4.2 hrest x hx
          · rw [if_neg h4] at hx
            rcases List.mem_cons.mp hx with rfl | hx
            · decide
            · exact utf8FromToks_scalar fuel rest hrest x hx

theorem utf8Toks2_scalar : ∀ (fuel b : Nat) (toks : List PctTok), b ≤ 0xDF →
    (∀ c, PctTok.lit c ∈ toks → scalarCp c = true) →
    ∀ x ∈ utf8Toks2 fuel b toks, scalarCp x = true
  | 0, _, _, _, _ => by simp [utf8Toks2]
  | fuel + 1, b, [], _, h => by
    intro x hx
    have hstep : utf8Toks2 (fuel + 1) b [] = 0xFFFD :: utf8FromToks fuel [] := rfl
    rw [hstep] at hx
    rcases List.mem_cons.mp hx with rfl | hx
    · decide
    · exact utf8FromToks_scalar fuel [] h x hx
  | fuel + 1, b, .lit c :: rest, _, h => by
    intro x hx
    have hstep : utf8Toks2 (fuel + 1) b (.lit c :: rest)
        = 0xFFFD :: utf8FromToks fuel (.lit c :: rest) := rfl
    rw [hstep] at hx
    rcases List.mem_cons.mp hx with rfl | hx
    · decide
    · exact utf8FromToks_scalar fuel _ h x hx
  | fuel + 1, b, .byte b2 :: rest2, hb, h => by
    intro x hx
    rw [utf8Toks2] at hx
    by_cases hcont : isCont b2 = true
    · rw [if_pos hcont] at hx
      obtain ⟨hc1, hc2⟩ := isCont_bounds hcont
      rcases List.mem_cons.mp hx with rfl | hx
      · simp only [scalarCp, Bool.or_eq_true, decide_eq_true_eq, Bool.and_eq_true]
        omega
      · exact utf8FromToks_scalar fuel rest2 (litHyp_tail h) x hx
    · rw [if_neg hcont] at hx
      rcases List.mem_cons.mp hx with rfl | hx
      · decide
      · exact utf8FromToks_scalar fuel _ h x hx

theorem utf8Toks3_scalar : ∀ (fuel b : Nat) (toks : List PctTok), 0xE0 ≤ b → b ≤ 0xEF →
    (∀ c, PctTok.lit c ∈ toks → scalarCp c = true) →
    ∀ x ∈ utf8Toks3 fuel b toks, scalarCp x = true
  | 0, _, _, _, _, _ => by simp [utf8Toks3]
  | fuel + 1, b, [], _, _, h => by
    intro x hx
    have hstep : utf8Toks3 (fuel + 1) b [] = 0xFFFD :: utf8FromToks fuel [] := rfl
    rw [hstep] at hx
    rcases List.mem_cons.mp hx with rfl | hx
    · decide
    · exact utf8FromToks_scalar fuel [] h x hx
  | fuel + 1, b, .lit c :: rest, _, _, h => by
    intro x hx
    have hstep : utf8Toks3 (fuel + 1) b (.lit c :: rest)
        = 0xFFFD :: utf8FromToks fuel (.lit c :: rest) := rfl
    rw [hstep] at hx
    rcases List.mem_cons.mp hx with rfl | hx
    · decide
    · exact utf8FromToks_scalar fuel _ h x hx
  | fuel + 1, b, .byte b2 :: [], _, _, h => by
    intro x hx
    have hstep : utf8Toks3 (fuel + 1) b (.byte b2 :: [])
        = if cont2ok b b2 then 0xFFFD :: utf8FromToks fuel []
          else 0xFFFD :: utf8FromToks fuel (.byte b2 :: []) := rfl
    rw [hstep] at hx
    by_cases hcont : cont2ok b b2 = true
    · rw [if_pos hcont] at hx
      rcases List.mem_cons.mp hx with rfl | hx
      · decide
      · exact utf8FromToks_scalar fuel [] (litHyp_tail h) x hx
    · rw [if_neg hcont] at hx
      rcases List.mem_cons.mp hx with rfl | hx
      · decide
      · exact utf8FromToks_scalar fuel _ h x hx
  | fuel + 1, b, .byte b2 :: .lit c :: rest, _, _, h => by
    intro x hx
    have hstep : utf8Toks3 (fuel + 1) b (.byte b2 :: .lit c :: rest)
        = if cont2ok b b2 then 0xFFFD :: utf8FromToks fuel (.lit c :: rest)
          else 0xFFFD :: utf8FromToks fuel (.byte b2 :: .lit c :: rest) := rfl
    rw [hstep] at hx
    by_cases hcont : cont2ok b b2 = true
    · rw [if_pos hcont] at hx
      rcases List.mem_cons.mp hx with rfl | hx
      · decide
      · exact utf8FromToks_scalar fuel _ (litHyp_tail h) x hx
    · rw [if_neg hcont] at hx
      rcases List.mem_cons.mp hx with rfl | hx
      · decide
      · exact utf8FromToks_scalar fuel _ h x hx
  | fuel + 1, b, .byte b2 :: .byte b3 :: rest2, hbl, hbu, h => by
    intro x hx
    rw [utf8Toks3] at hx
    by_cases hcont : cont2ok b b2 = true
    · rw [if_pos hcont] at hx
      obtain ⟨hA, hB, hC, hD, _, _⟩ := cont2ok_bounds hcont
      by_cases hc3 : isCont b3 = true
      · rw [if_pos hc3] at hx
        obtain ⟨hE, hF⟩ := isCont_bounds hc3
        rcases List.mem_cons.mp hx with rfl | hx
        · simp only [scalarCp, Bool.or_eq_true, decide_eq_true_eq, Bool.and_eq_true]
          omega
        · exact utf8FromToks_scalar fuel rest2 (litHyp_tail (litHyp_tail h)) x hx
      · rw [if_neg hc3] at hx
        rcases List.mem_cons.mp hx with rfl | hx
        · decide
        · exact utf8FromToks_scalar fuel _ (litHyp_byte (litHyp_tail (litHyp_tail h))) x hx
    · rw [if_neg hcont] at hx
      rcases List.mem_cons.mp hx with rfl | hx
      · decide
      · exact utf8FromToks_scalar fuel _ h x hx

theorem utf8Toks4_scalar : ∀ (fuel b : Nat) (toks : List PctTok), 0xF0 ≤ b → b ≤ 0xF4 →
    (∀ c, PctTok.lit c ∈ toks → scalarCp c = true) →
    ∀ x ∈ utf8Toks4 fuel b toks, scalarCp x = true
  | 0, _, _, _, _, _ => by simp [utf8Toks4]
  | fuel + 1, b, [], _, _, h => by
    intro x hx
    have hstep : utf8Toks4 (fuel + 1) b [] = 0xFFFD :: utf8FromToks fuel [] := rfl
    rw [hstep] at hx
    rcases List.mem_cons.mp hx with rfl | hx
    · decide
    · exact utf8FromToks_scalar fuel [] h x hx
  | fuel + 1, b, .lit c :: rest, _, _, h => by
    intro x hx
    have hstep : utf8Toks4 (fuel + 1) b (.lit c :: rest)
        = 0xFFFD :: utf8FromToks fuel (.lit c :: rest) := rfl
    rw [hstep] at hx
    rcases List.mem_cons.mp hx with rfl | hx
    · decide
    · exact utf8FromToks_scalar fuel _ h x hx
  | fuel + 1, b, .byte b2 :: [], _, _, h => by
    intro x hx
    have hstep : utf8Toks4 (fuel + 1) b (.byte b2 :: [])
        = if cont2ok b b2 then 0xFFFD :: utf8FromToks fuel []
          else 0xFFFD :: utf8FromToks fuel (.byte b2 :: []) := rfl
    rw [hstep] at hx
    by_cases hcont : cont2ok b b2 = true
    · rw [if_pos hcont] at hx
      rcases List.mem_cons.mp hx with rfl | hx
      · decide
      · exact utf8FromToks_scalar fuel [] (litHyp_tail h) x hx
    · rw [if_neg hcont] at hx
      rcases List.mem_cons.mp hx with rfl | hx
      · decide
      · exact utf8FromToks_scalar fuel _ h x hx
  | fuel + 1, b, .byte b2 :: .lit c :: rest, _, _, h => by
    intro x hx
    have hstep : utf8Toks4 (fuel + 1) b (.byte b2 :: .lit c :: rest)
        = if cont2ok b b2 then 0xFFFD :: utf8FromToks fuel (.lit c :: rest)
          else 0xFFFD :: utf8FromToks fuel (.byte b2 :: .lit c :: rest) := rfl
    rw [hstep] at hx
    by_cases hcont : cont2ok b b2 = true
    · rw [if_pos hcont] at hx
      rcases List.mem_cons.mp hx with rfl | hx
      · decide
      · exact utf8FromToks_scalar fuel _ (litHyp_tail h) x hx
    · rw [if_neg hcont] at hx
      rcases List.mem_cons.mp hx with rfl | hx
      · decide
      · exact utf8FromToks_scalar fuel _ h x hx
  | fuel + 1, b, .byte b2 :: .byte b3 :: [], _, _, h => by
    intro x hx
    have hstep : utf8Toks4 (fuel + 1) b (.byte b2 :: .byte b3 :: [])
        = if cont2ok b b2 && isCont b3 then 0xFFFD :: utf8FromToks fuel []
          else if cont2ok b b2 then 0xFFFD :: utf8FromToks fuel (.byte b3 :: [])
          else 0xFFFD :: utf8FromToks fuel (.byte b2 :: .byte b3 :: []) := rfl
    rw [hstep] at hx
    by_cases hc1 : (cont2ok b b2 && isCont b3) = true
    · rw [if_pos hc1] at hx
      rcases List.mem_cons.mp hx with rfl | hx
      · decide
      · exact utf8FromToks_scalar fuel [] (litHyp_tail (litHyp_tail h)) x hx
    · rw [if_neg hc1] at hx
      by_cases hc2 : cont2ok b b2 = true
      · rw [if_pos hc2] at hx
        rcases List.mem_cons.mp hx with rfl | hx
        · decide
        · exact utf8FromToks_scalar fuel _ (litHyp_tail h) x hx
      · rw [if_neg hc2] at hx
        rcases List.mem_cons.mp hx with rfl | hx
        · decide
        · exact utf8FromToks_scalar fuel _ h x hx
  | fuel + 1, b, .byte b2 :: .byte b3 :: .lit c :: rest, _, _, h => by
    intro x hx
    have hstep : utf8Toks4 (fuel + 1) b (.byte b2 :: .byte b3 :: .lit c :: rest)
        = if cont2ok b b2 && isCont b3 then 0xFFFD :: utf8FromToks fuel (.lit c :: rest)
          else if cont2ok b b2 then 0xFFFD :: utf8FromToks fuel (.byte b3 :: .lit c :: rest)
          else 0xFFFD :: utf8FromToks fuel (.byte b2 :: .byte b3 :: .lit c :: rest) := rfl
    rw [hstep] at hx
    by_cases hc1 : (cont2ok b b2 && isCont b3) = true
    · rw [if_pos hc1] at hx
      rcases List.mem_cons.mp hx with rfl | hx
      · decide
      · exact utf8FromToks_scalar fuel _ (litHyp_tail (litHyp_tail h)) x hx
    · rw [if_neg hc1] at hx
      by_cases hc2 : cont2ok b b2 = true
      · rw [if_pos hc2] at hx
        rcases List.mem_cons.mp hx with rfl | hx
        · decide
        · exact utf8FromToks_scalar fuel _ (litHyp_tail h) x hx
      · rw [if_neg hc2] at hx
        rcases List.mem_cons.mp hx with rfl | hx
        · decide
        · exact utf8FromToks_scalar fuel _ h x hx
  | fuel + 1, b, .byte b2 :: .byte b3 :: .byte b4 :: rest2, hbl, hbu, h => by
    intro x hx
    rw [utf8Toks4] at hx
    by_cases hcont : cont2ok b b2 = true
    · rw [if_pos hcont] at hx
      obtain ⟨hA, hB, _, _, hC, hD⟩ := cont2ok_bounds hcont
      by_cases hc3 : isCont b3 = true
      · rw [if_pos hc3] at hx
        obtain ⟨hE, hF⟩ := isCont_bounds hc3
        by_cases hc4 : isCont b4 = true
        · rw [if_pos hc4] at hx
          obtain ⟨hG, hH⟩ := isCont_bounds hc4
          rcases List.mem_cons.mp hx with rfl | hx
          · simp only [scalarCp, Bool.or_eq_true, decide_eq_true_eq, Bool.and_eq_true]
            omega
          · exact utf8FromToks_scalar fuel rest2
              (litHyp_tail (litHyp_tail (litHyp_tail h))) x hx
        · rw [if_neg hc4] at hx
          rcases List.mem_cons.mp hx with rfl | hx
          · decide
          · exact utf8FromToks_scalar fuel _
              (litHyp_byte (litHyp_tail (litHyp_tail (litHyp_tail h)))) x hx
      · rw [if_neg hc3] at hx
        rcases List.mem_cons.mp hx with rfl | hx
        · decide
        · exact utf8FromToks_scalar fuel _ (litHyp_tail h) x hx
    · rw [if_neg hcont] at hx
      rcases List.mem_cons.mp hx with rfl | hx
      · decide
      · exact utf8FromToks_scalar fuel _ h x hx
end

/-- unquote of a surrogate-free string is surrogate free: decoded byte runs
    produce Unicode scalar values (or the replacement character) and literal
    characters come from the input. -/
theorem decode_uri_component_scalar (s : List Nat) (hs : scalarStr s = true) :
    scalarStr (decode_uri_component s) = true := by
  simp only [scalarStr, List.all_eq_true, decode_uri_component]
  intro x hx
  exact utf8FromToks_scalar _ _ (fun c hc => scalarStr_mem hs (pctTokens_lit s c hc)) x hx

theorem rewrite_path_slash3E_eq (value fromPre toPre : List Nat)
    (hv : scalarStr value = true) (ht : scalarStr toPre = true) :
    rewrite_path_slash3E value fromPre toPre
      = some (rewrite_path_slash3 value fromPre toPre) := by
  have hpath1 : scalarStr (if (value.drop 8).contains 37
      then decode_uri_component (value.drop 8) else value.drop 8) = true := by
    split
    · exact decode_uri_component_scalar _ (scalarStr_drop hv 8)
    · exact scalarStr_drop hv 8
  simp only [rewrite_path_slash3E, rewrite_path_slash3]
  by_cases hsw : startsWithL fromPre (if (value.drop 8).contains 37
      then decode_uri_component (value.drop 8) else value.drop 8) = true
  · rw [if_pos hsw, if_pos hsw,
      encode_uri_componentE_eq _ (scalarStr_append ht (scalarStr_drop hpath1 _))]
    rfl
  · rw [if_neg hsw, if_neg hsw]

/-- rewrite_path never raises on surrogate-free input with a surrogate-free
    target prefix: the exception propagating model agrees with the total one. -/
theorem rewrite_pathE_eq (value fromPre toPre : List Nat)
    (hv : scalarStr value = true) (ht : scalarStr toPre = true) :
    rewrite_pathE value fromPre toPre = some (rewrite_path value fromPre toPre) := by
  simp only [rewrite_pathE, rewrite_path]
  by_cases h1 : startsWithL fileMarker value = true
  · rw [if_pos h1, if_pos h1]
    have hpath1 : scalarStr (if (value.drop 7).contains 37
        then decode_uri_component (value.drop 7) else value.drop 7) = true := by
      split
      · exact decode_uri_component_scalar _ (scalarStr_drop hv 7)
      · exact scalarStr_drop hv 7
    by_cases h2 : startsWithL fromPre (if (value.drop 7).contains 37
        then decode_uri_component (value.drop 7) else value.drop 7) = true
    · rw [if_pos h2, if_pos h2,
        encode_uri_componentE_eq _ (scalarStr_append ht (scalarStr_drop hpath1 _))]
      rfl
    · rw [if_neg h2, if_neg h2]
  · rw [if_neg h1, if_neg h1]
    by_cases h3 : startsWithL fileMarker3 value = true
    · rw [if_pos h3, if_pos h3]
      exact rewrite_path_slash3E_eq value fromPre toPre hv ht
    · rw [if_neg h3, if_neg h3]
      by_cases h4 : startsWithL fromPre value = true
      · rw [if_pos h4, if_pos h4]
      · rw [if_neg h4, if_neg h4]

mutual
/-- On a well-formed message (scalar strings) with a surrogate-free target
    prefix the exception propagating rewrite agrees with the total model, so
    the traversal never raises. -/
theorem rewrite_objectE_eq : ∀ (m : Msg) (f t : List Nat), wfMsg m = true →
    scalarStr t = true → rewrite_objectE m f t = some (rewrite_object m f t)
  | .str s, f, t, hw, ht => by
    have hs : scalarStr s = true := by simpa [wfMsg] using hw
    simp only [rewrite_objectE, rewrite_object]
    by_cases hg : (startsWithL f s || startsWithL fileMarker s) = true
    · rw [if_pos hg, if_pos hg, rewrite_pathE_eq s f t hs ht]
      rfl
    · rw [if_neg hg, if_neg hg]
  | .int n, _, _, _, _ => rfl
  | .bool b, _, _, _, _ => rfl
  | .null, _, _, _, _ => rfl
  | .arr items, f, t, hw, ht => by
    have h := rewriteListItemsE_eq items f t (by simpa [wfMsg] using hw) ht
    simp only [rewrite_objectE, rewrite_object, h]
    rfl
  | .obj pairs, f, t, hw, ht => by
    have h := rewriteDictItemsE_eq pairs f t (by simpa [wfMsg] using hw) ht
    simp only [rewrite_objectE, rewrite_object, h]
    rfl

theorem rewriteDictItemsE_eq : ∀ (ps : MsgPairs) (f t : List Nat), wfMsgP ps = true →
    scalarStr t = true → rewriteDictItemsE ps f t = some (rewriteDictItems ps f t)
  | .nil, _, _, _, _ => rfl
  | .cons k (.str s) rest, f, t, hw, ht => by
    obtain ⟨hk, hs, hrest⟩ : scalarStr k = true ∧ scalarStr s = true ∧ wfMsgP rest = true := by
      simpa [wfMsgP, wfMsg, Bool.and_eq_true, and_assoc] using hw
    have hr := rewriteDictItemsE_eq rest f t hrest ht
    have hp := rewrite_pathE_eq s f t hs ht
    by_cases hpk : PATH_KEYS.contains k = true
    · simp only [rewriteDictItemsE, rewriteDictItems, hpk, if_true, hp, hr, Option.map_some']
    · rw [Bool.not_eq_true] at hpk
      have hws : (k == pyStr "workspaceFolders" && isArrMsg (Msg.str s)) = false := by
        simp [isArrMsg]
      simp only [rewriteDictItemsE, rewriteDictItems, hpk, Bool.false_eq_true, if_false, hws,
        hr, rewrite_objectE, rewrite_object]
      by_cases hg : (startsWithL f s || startsWithL fileMarker s) = true
      · rw [if_pos hg, if_pos hg, hp]
        rfl
      · rw [if_neg hg, if_neg hg]
  | .cons k (.int n) rest, f, t, hw, ht => by
    obtain ⟨hk, hrest⟩ : scalarStr k = true ∧ wfMsgP rest = true := by
      simpa [wfMsgP, wfMsg, Bool.and_eq_true, and_assoc] using hw
    have hr := rewriteDictItemsE_eq rest f t hrest ht
    simp only [rewriteDictItemsE, rewriteDictItems, hr, isArrMsg, Bool.and_false,
      Bool.false_eq_true, if_false, rewrite_objectE, rewrite_object, ite_self]
  | .cons k (.bool b) rest, f, t, hw, ht => by
    obtain ⟨hk, hrest⟩ : scalarStr k = true ∧ wfMsgP rest = true := by
      simpa [wfMsgP, wfMsg, Bool.and_eq_true, and_assoc] using hw
    have hr := rewriteDictItemsE_eq rest f t hrest ht
    simp only [rewriteDictItemsE, rewriteDictItems, hr, isArrMsg, Bool.and_false,
      Bool.false_eq_true, if_false, rewrite_objectE, rewrite_object, ite_self]
  | .cons k .null rest, f, t, hw, ht => by
    obtain ⟨hk, hrest⟩ : scalarStr k = true ∧ wfMsgP rest = true := by
      simpa [wfMsgP, wfMsg, Bool.and_eq_true, and_assoc] using hw
    have hr := rewriteDictItemsE_eq rest f t hrest ht
    simp only [rewriteDictItemsE, rewriteDictItems, hr, isArrMsg, Bool.and_false,
      Bool.false_eq_true, if_false, rewrite_objectE, rewrite_object, ite_self]
  | .cons k (.arr items) rest, f, t, hw, ht => by
    obtain ⟨hk, hitems, hrest⟩ : scalarStr k = true ∧ wfMsgL items = true ∧
        wfMsgP rest = true := by
      simpa [wfMsgP, wfMsg, Bool.and_eq_true, and_assoc] using hw
    have hr := rewriteDictItemsE_eq rest f t hrest ht
    have hA := rewritePathArrayE_eq items f t hitems ht
    have hL := rewriteListItemsE_eq items f t hitems ht
    by_cases hpk : PATH_KEYS.contains k = true
    · simp only [rewriteDictItemsE, rewriteDictItems, hpk, if_true, hA, hr, Option.map_some']
    · rw [Bool.not_eq_true] at hpk
      simp only [rewriteDictItemsE, rewriteDictItems, hpk, Bool.false_eq_true, if_false,
        rewrite_objectE, rewrite_object, hL, hr, Option.map_some', ite_self]
  | .cons k (.obj ps) rest, f, t, hw, ht => by
    obtain ⟨hk, hps, hrest⟩ : scalarStr k = true ∧ wfMsgP ps = true ∧ wfMsgP rest = true := by
      simpa [wfMsgP, wfMsg, Bool.and_eq_true, and_assoc] using hw
    have hr := rewriteDictItemsE_eq rest f t hrest ht
    have hP := rewriteDictItemsE_eq ps f t hps ht
    simp only [rewriteDictItemsE, rewriteDictItems, hr, isArrMsg, Bool.and_false,
      Bool.false_eq_true, if_false, rewrite_objectE, rewrite_object, hP, Option.map_some',
      ite_self]

theorem rewritePathArrayE_eq : ∀ (l : MsgList) (f t : List Nat), wfMsgL l = true →
    scalarStr t = true → rewritePathArrayE l f t = some (rewritePathArray l f t)
  | .nil, _, _, _, _ => rfl
  | .cons (.str s) rest, f, t, hw, ht => by
    obtain ⟨hs, hrest⟩ : scalarStr s = true ∧ wfMsgL rest = true := by
      simpa [wfMsgL, wfMsg, Bool.and_eq_true] using hw
    have hp := rewrite_pathE_eq s f t hs ht
    have h2 := rewritePathArrayE_eq rest f t hrest ht
    simp only [rewritePathArrayE, rewritePathArray, hp, h2, Option.map_some']
  | .cons (.int n) rest, f, t, hw, ht => by
    obtain hrest : wfMsgL rest = true := by
      simpa [wfMsgL, wfMsg, Bool.and_eq_true] using hw
    have h2 := rewritePathArrayE_eq rest f t hrest ht
    simp only [rewritePathArrayE, rewritePathArray, h2, rewrite_objectE, rewrite_object]
  | .cons (.bool b) rest, f, t, hw, ht => by
    obtain hrest : wfMsgL rest = true := by
      simpa [wfMsgL, wfMsg, Bool.and_eq_true] using hw
    have h2 := rewritePathArrayE_eq rest f t hrest ht
    simp only [rewritePathArrayE, rewritePathArray, h2, rewrite_objectE, rewrite_object]
  | .cons .null rest, f, t, hw, ht => by
    obtain hrest : wfMsgL rest = true := by
      simpa [wfMsgL, wfMsg, Bool.and_eq_true] using hw
    have h2 := rewritePathArrayE_eq rest f t hrest ht
    simp only [rewritePathArrayE, rewritePathArray, h2, rewrite_objectE, rewrite_object]
  | .cons (.arr items) rest, f, t, hw, ht => by
    obtain ⟨hitems, hrest⟩ : wfMsgL items = true ∧ wfMsgL rest = true := by
      simpa [wfMsgL, wfMsg, Bool.and_eq_true] using hw
    have hL := rewriteListItemsE_eq items f t hitems ht
    have h2 := rewritePathArrayE_eq rest f t hrest ht
    simp only [rewritePathArrayE, rewritePathArray, hL, h2, rewrite_objectE, rewrite_object,
      Option.map_some']
  | .cons (.obj ps) rest, f, t, hw, ht => by
    obtain ⟨hps, hrest⟩ : wfMsgP ps = true ∧ wfMsgL rest = true := by
      simpa [wfMsgL, wfMsg, Bool.and_eq_true] using hw
    have hP := rewriteDictItemsE_eq ps f t hps ht
    have h2 := rewritePathArrayE_eq rest f t hrest ht
    simp only [rewritePathArrayE, rewritePathArray, hP, h2, rewrite_objectE, rewrite_object,
      Option.map_some']

theorem rewriteListItemsE_eq : ∀ (l : MsgList) (f t : List Nat), wfMsgL l = true →
    scalarStr t = true → rewriteListItemsE l f t = some (rewriteListItems l f t)
  | .nil, _, _, _, _ => rfl
  | .cons item rest, f, t, hw, ht => by
    obtain ⟨hm, hrest⟩ : wfMsg item = true ∧ wfMsgL rest = true := by
      simpa [wfMsgL, Bool.and_eq_true] using hw
    have h1 := rewrite_objectE_eq item f t hm ht
    have h2 := rewriteListItemsE_eq rest f t hrest ht
    simp only [rewriteListItemsE, rewriteListItems, h1, h2]
end

/-- C8, amended: rewrite_object terminates and returns on every message, and
    non-string scalars pass through unchanged, but it is not exception free:
    the quote call inside rewrite_path raises UnicodeEncodeError on a string
    holding a lone surrogate.  On every well-formed message (strings built of
    Unicode scalar values) and surrogate-free target prefix, the exception
    propagating model returns some, agreeing with the total model, so the
    rewrite never raises there. -/
theorem claim_C8_total_no_raise :
    (∀ (fromPre toPre : List Nat) (n : Int) (b : Bool),
        rewrite_object (Msg.int n) fromPre toPre = Msg.int n ∧
        rewrite_object (Msg.bool b) fromPre toPre = Msg.bool b ∧
        rewrite_object Msg.null fromPre toPre = Msg.null ∧
        rewrite_objectE (Msg.int n) fromPre toPre = some (Msg.int n) ∧
        rewrite_objectE (Msg.bool b) fromPre toPre = some (Msg.bool b) ∧
        rewrite_objectE Msg.null fromPre toPre = some Msg.null) ∧
    (∀ (m : Msg) (fromPre toPre : List Nat), wfMsg m = true → scalarStr toPre = true →
        rewrite_objectE m fromPre toPre = some (rewrite_object m fromPre toPre)) :=
  ⟨fun _ _ _ _ => ⟨rfl, rfl, rfl, rfl, rfl, rfl⟩,
   fun m f t hm ht => rewrite_objectE_eq m f t hm ht⟩

theorem claim_C8_witness :
    wfMsg (Msg.obj (mPairs [(pyStr "uri", Msg.str (pyStr "file:///work/host/a.py")),
      (pyStr "value", Msg.int 3)])) = true ∧
    scalarStr (pyStr "/work/container") = true ∧
    rewrite_objectE (Msg.obj (mPairs [(pyStr "uri", Msg.str (pyStr "file:///work/host/a.py")),
        (pyStr "value", Msg.int 3)])) (pyStr "/work/host") (pyStr "/work/container")
      = some (rewrite_object (Msg.obj (mPairs [(pyStr "uri",
          Msg.str (pyStr "file:///work/host/a.py")), (pyStr "value", Msg.int 3)]))
          (pyStr "/work/host") (pyStr "/work/container")) :=
  ⟨by decide, by decide,
    claim_C8_total_no_raise.2 (Msg.obj (mPairs [(pyStr "uri",
      Msg.str (pyStr "file:///work/host/a.py")), (pyStr "value", Msg.int 3)]))
      (pyStr "/work/host") (pyStr "/work/container") (by decide) (by decide)⟩

/-- The original exception-freedom claim fails in the program: a client body
    that is valid UTF-8 and valid JSON can carry a lone surrogate (an unpaired
    backslash-u d800 escape, which json.loads turns into a lone-surrogate
    str), and rewriting that message raises UnicodeEncodeError inside quote at
    source line 100, modelled as none. -/
theorem claim_C8_counterexample :
    utf8DecodeStrict (pyBytes "\x7b\"uri\":\"file:///work/host/a\\ud800\"\x7d")
      = some (pyStr "\x7b\"uri\":\"file:///work/host/a\\ud800\"\x7d") ∧
    json_loads (pyStr "\x7b\"uri\":\"file:///work/host/a\\ud800\"\x7d")
      = some (Msg.obj (mPairs [(pyStr "uri",
          Msg.str (pyStr "file:///work/host/a" ++ [0xD800]))])) ∧
    rewrite_objectE (Msg.obj (mPairs [(pyStr "uri",
        Msg.str (pyStr "file:///work/host/a" ++ [0xD800]))]))
      (pyStr "/work/host") (pyStr "/work/container") = none := by
  decide

theorem natToDigitsAux_succ (fuel n : Nat) :
    natToDigitsAux (fuel + 1) n =
      if n < 10 then [48 + n] else natToDigitsAux fuel (n / 10) ++ [48 + n % 10] := rfl

theorem natToDigitsAux_irrel (n : Nat) : ∀ f1 f2, n < f1 → n < f2 →
    natToDigitsAux f1 n = natToDigitsAux f2 n := by
  induction n using Nat.strong_induction_on with
  | _ n ih =>
    intro f1 f2 h1 h2
    match f1, f2 with
    | a + 1, b + 1 =>
      rw [natToDigitsAux_succ, natToDigitsAux_succ]
      by_cases hn : n < 10
      · simp [hn]
      · have hd : n / 10 < n := Nat.div_lt_self (by omega) (by omega)
        simp only [hn, if_false]
        rw [ih (n / 10) hd a b (by omega) (by omega)]

theorem natToDigits_small {n : Nat} (h : n < 10) : natToDigits n = [48 + n] := by
  unfold natToDigits
  rw [natToDigitsAux_succ, if_pos h]

theorem natToDigits_unfold {n : Nat} (h : 10 ≤ n) :
    natToDigits n = natToDigits (n / 10) ++ [48 + n % 10] := by
  have hd : n / 10 < n := Nat.div_lt_self (by omega) (by omega)
  unfold natToDigits
  rw [natToDigitsAux_succ, if_neg (by omega)]
  rw [natToDigitsAux_irrel (n / 10) n (n / 10 + 1) (by omega) (by omega)]

theorem natToDigits_digits (n : Nat) : ∀ c ∈ natToDigits n, 48 ≤ c ∧ c ≤ 57 := by
  induction n using Nat.strong_induction_on with
  | _ n ih =>
    by_cases hn : n < 10
    · rw [natToDigits_small hn]
      intro c hc
      simp at hc
      omega
    · rw [natToDigits_unfold (by omega)]
      intro c hc
      rcases List.mem_append.mp hc with h | h
      · exact ih (n / 10) (Nat.div_lt_self (by omega) (by omega)) c h
      · simp at h
        have := Nat.mod_lt n (show 0 < 10 by omega)
        omega

theorem natToDigits_ne_nil (n : Nat) : natToDigits n ≠ [] := by
  by_cases hn : n < 10
  · rw [natToDigits_small hn]; simp
  · rw [natToDigits_unfold (by omega)]; simp

theorem natToDigits_head_pos (n : Nat) (h : 0 < n) :
    ∃ d ds, natToDigits n = d :: ds ∧ 49 ≤ d ∧ d ≤ 57 := by
  induction n using Nat.strong_induction_on with
  | _ n ih =>
    by_cases hn : n < 10
    · exact ⟨48 + n, [], natToDigits_small hn, by omega, by omega⟩
    · obtain ⟨d, ds, hd, h1, h2⟩ :=
        ih (n / 10) (Nat.div_lt_self (by omega) (by omega)) (by omega)
      exact ⟨d, ds ++ [48 + n % 10], by rw [natToDigits_unfold (by omega), hd]; rfl, h1, h2⟩

theorem foldl_natToDigits (n : Nat) : ∀ acc,
    (natToDigits n).foldl (fun a c => a * 10 + (c - 48)) acc
      = acc * 10 ^ (natToDigits n).length + n := by
  induction n using Nat.strong_induction_on with
  | _ n ih =>
    intro acc
    by_cases hn : n < 10
    · rw [natToDigits_small hn]
      simp only [List.foldl_cons, List.foldl_nil, List.length_cons, List.length_nil,
        pow_one, zero_add]
      omega
    · rw [natToDigits_unfold (by omega)]
      rw [List.foldl_append, ih (n / 10) (Nat.div_lt_self (by omega) (by omega)) acc]
      simp only [List.foldl_cons, List.foldl_nil, List.length_append, List.length_cons,
        List.length_nil, zero_add, pow_succ]
      have h1 : (48 + n % 10) - 48 = n % 10 := by omega
      rw [h1]
      have hq : n / 10 * 10 + n % 10 = n := by omega
      calc (acc * 10 ^ (natToDigits (n / 10)).length + n / 10) * 10 + n % 10
          = acc * 10 ^ (natToDigits (n / 10)).length * 10 + (n / 10 * 10 + n % 10) := by ring
        _ = acc * (10 ^ (natToDigits (n / 10)).length * 10) + n := by rw [hq]; ring

theorem digitsValNat_natToDigits (n : Nat) : digitsValNat (natToDigits n) = n := by
  unfold digitsValNat
  rw [foldl_natToDigits n 0]
  simp

theorem parseDigits_append (ds : List Nat) : ∀ rest acc,
    (∀ c ∈ ds, 48 ≤ c ∧ c ≤ 57) →
    (∀ c rest2, rest = c :: rest2 → ¬(48 ≤ c ∧ c ≤ 57)) →
    parseDigits (ds ++ rest) acc = (ds.foldl (fun a c => a * 10 + (c - 48)) acc, rest) := by
  induction ds with
  | nil =>
    intro rest acc _ hrest
    cases rest with
    | nil => simp [parseDigits]
    | cons c r2 =>
      simp only [List.nil_append, List.foldl_nil, parseDigits]
      rw [if_neg (hrest c r2 rfl)]
  | cons d ds ih =>
    intro rest acc hds hrest
    have hd := hds d (by simp)
    simp only [List.cons_append, parseDigits, if_pos hd, List.foldl_cons]
    exact ih rest (acc * 10 + (d - 48)) (fun c hc => hds c (by simp [hc])) hrest

theorem delimOk_not_digit {rest : List Nat} (h : delimOk rest = true) :
    ∀ c rest2, rest = c :: rest2 → ¬(48 ≤ c ∧ c ≤ 57) := by
  intro c rest2 he
  subst he
  simp only [delimOk, Bool.or_eq_true, beq_iff_eq] at h
  omega

theorem parseJsonUInt_natToDigits (n : Nat) (rest : List Nat) (h : delimOk rest = true) :
    parseJsonUInt (natToDigits n ++ rest) = some (n, rest) := by
  by_cases hn : n = 0
  · subst hn
    rw [natToDigits_small (by omega)]
    simp [parseJsonUInt]
  · obtain ⟨d, ds, hd, h1, h2⟩ := natToDigits_head_pos n (by omega)
    rw [hd]
    simp only [List.cons_append, parseJsonUInt, if_neg (by omega : ¬ d = 48),
      if_pos (show 49 ≤ d ∧ d ≤ 57 by omega)]
    have hds : ∀ c ∈ ds, 48 ≤ c ∧ c ≤ 57 := by
      intro c hc
      exact natToDigits_digits n c (by rw [hd]; simp [hc])
    rw [parseDigits_append ds rest (d - 48) hds (delimOk_not_digit h)]
    have : ds.foldl (fun a c => a * 10 + (c - 48)) (d - 48)
        = (d :: ds).foldl (fun a c => a * 10 + (c - 48)) 0 := by
      simp [List.foldl_cons]
    rw [this, ← hd]
    have := digitsValNat_natToDigits n
    unfold digitsValNat at this
    rw [this]

theorem delimOk_not_numberTail {rest : List Nat} (h : delimOk rest = true) :
    numberTail rest = false := by
  cases rest with
  | nil => rfl
  | cons c r =>
    simp only [delimOk, Bool.or_eq_true, beq_iff_eq] at h
    simp only [numberTail, Bool.or_eq_false_iff, beq_eq_false_iff_ne]
    omega

theorem parseJsonNumber_dumpsInt (n : Int) (rest : List Nat) (h : delimOk rest = true) :
    parseJsonNumber (dumpsInt n ++ rest) = some (n, rest) := by
  by_cases hn : n < 0
  · have : dumpsInt n = 45 :: natToDigits n.natAbs := by simp [dumpsInt, hn]
    rw [this]
    simp only [List.cons_append, parseJsonNumber, if_pos rfl]
    rw [parseJsonUInt_natToDigits n.natAbs rest h]
    simp only [delimOk_not_numberTail h, Bool.false_eq_true, if_false]
    have he : -((n.natAbs : Int)) = n := by omega
    rw [he]
    simp
  · have : dumpsInt n = natToDigits n.toNat := by simp [dumpsInt, hn]
    rw [this]
    obtain ⟨d, ds, hd⟩ : ∃ d ds, natToDigits n.toNat = d :: ds := by
      cases he : natToDigits n.toNat with
      | nil => exact absurd he (natToDigits_ne_nil _)
      | cons d ds => exact ⟨d, ds, rfl⟩
    have hdd := natToDigits_digits n.toNat d (by rw [hd]; simp)
    rw [hd]
    simp only [List.cons_append, parseJsonNumber, if_neg (show ¬ d = 45 by omega)]
    rw [← List.cons_append, ← hd, parseJsonUInt_natToDigits n.toNat rest h]
    simp only [delimOk_not_numberTail h, Bool.false_eq_true, if_false]
    congr 2
    omega

theorem hexLower_facts : ∀ d, d < 16 → isHexDigit (hexLower d) = true ∧
    hexVal (hexLower d) = d := by decide

theorem parseHex4_correct (v : Nat) (hv : v < 0x10000) :
    (isHexDigit (hexLower (v / 4096)) && isHexDigit (hexLower (v / 256 % 16)) &&
      isHexDigit (hexLower (v / 16 % 16)) && isHexDigit (hexLower (v % 16))) = true ∧
    hexVal (hexLower (v / 4096)) * 4096 + hexVal (hexLower (v / 256 % 16)) * 256 +
      hexVal (hexLower (v / 16 % 16)) * 16 + hexVal (hexLower (v % 16)) = v := by
  obtain ⟨ha1, ha2⟩ := hexLower_facts (v / 4096) (by omega)
  obtain ⟨hb1, hb2⟩ := hexLower_facts (v / 256 % 16) (by omega)
  obtain ⟨hc1, hc2⟩ := hexLower_facts (v / 16 % 16) (by omega)
  obtain ⟨hd1, hd2⟩ := hexLower_facts (v % 16) (by omega)
  refine ⟨by rw [ha1, hb1, hc1, hd1]; rfl, ?_⟩
  rw [ha2, hb2, hc2, hd2]
  omega

/-- The parser inverts the json.dumps escaping of one scalar character: it
    consumes the escape and conses the character, spending one fuel unit. -/
theorem parseStringBody_escape (c : Nat) (hc : scalarCp c = true) (f : Nat) (tail : List Nat) :
    parseStringBody (f + 1) (escapeCp c ++ tail)
      = (parseStringBody f tail).map (fun p => (c :: p.1, p.2)) := by
  simp only [scalarCp, Bool.or_eq_true, Bool.and_eq_true, decide_eq_true_eq] at hc
  by_cases h34 : c = 34
  · subst h34
    simp [escapeCp, parseStringBody]
  by_cases h92 : c = 92
  · subst h92
    simp [escapeCp, parseStringBody]
  by_cases h8 : c = 8
  · subst h8
    simp [escapeCp, parseStringBody]
  by_cases h9 : c = 9
  · subst h9
    simp [escapeCp, parseStringBody]
  by_cases h10 : c = 10
  · subst h10
    simp [escapeCp, parseStringBody]
  by_cases h12 : c = 12
  · subst h12
    simp [escapeCp, parseStringBody]
  by_cases h13 : c = 13
  · subst h13
    simp [escapeCp, parseStringBody]
  by_cases hctl : c < 32
  · have he : escapeCp c = 92 :: 117 :: hex4Lower c := by
      simp [escapeCp, h34, h92, h8, h9, h10, h12, h13, hctl]
    obtain ⟨hhex, hval⟩ := parseHex4_correct c (by omega)
    rw [he]
    simp only [hex4Lower, List.cons_append, List.nil_append, parseStringBody]
    simp only [show ¬(92 = 34) by omega, if_false, if_pos rfl,
      show ¬(117 = 34) ∧ ¬(117 = 92) ∧ ¬(117 = 47) ∧ ¬(117 = 98) ∧ ¬(117 = 102) ∧
        ¬(117 = 110) ∧ ¬(117 = 114) ∧ ¬(117 = 116) by omega]
    simp only [if_false, if_pos rfl, hhex, if_true, hval]
    rw [if_neg (show ¬(0xD800 ≤ c ∧ c ≤ 0xDBFF) by omega)]
  by_cases hraw : c < 127
  · have he : escapeCp c = [c] := by
      simp [escapeCp, h34, h92, h8, h9, h10, h12, h13, hctl, hraw]
    rw [he]
    simp only [List.cons_append, List.nil_append, parseStringBody]
    rw [if_neg h34, if_neg h92, if_neg (by omega : ¬ c < 32)]
  by_cases hbmp : c < 0x10000
  · have he : escapeCp c = 92 :: 117 :: hex4Lower c := by
      simp [escapeCp, h34, h92, h8, h9, h10, h12, h13, hctl, hraw, hbmp]
    obtain ⟨hhex, hval⟩ := parseHex4_correct c (by omega)
    rw [he]
    simp only [hex4Lower, List.cons_append, List.nil_append, parseStringBody]
    simp only [show ¬(92 = 34) by omega, if_false, if_pos rfl,
      show ¬(117 = 34) ∧ ¬(117 = 92) ∧ ¬(117 = 47) ∧ ¬(117 = 98) ∧ ¬(117 = 102) ∧
        ¬(117 = 110) ∧ ¬(117 = 114) ∧ ¬(117 = 116) by omega]
    simp only [if_false, if_pos rfl, hhex, if_true, hval]
    have hns : ¬(0xD800 ≤ c ∧ c ≤ 0xDBFF) := by omega
    rw [if_neg hns]
  · -- astral character: surrogate pair escape
    have hlt : c < 0x110000 := by omega
    have he : escapeCp c =
        (92 :: 117 :: hex4Lower (0xD800 + (c - 0x10000) / 0x400)) ++
          (92 :: 117 :: hex4Lower (0xDC00 + (c - 0x10000) % 0x400)) := by
      simp [escapeCp, h34, h92, h8, h9, h10, h12, h13, hctl, hraw, hbmp]
    have hhi : 0xD800 + (c - 0x10000) / 0x400 < 0x10000 := by omega
    have hlo : 0xDC00 + (c - 0x10000) % 0x400 < 0x10000 := by omega
    obtain ⟨hhex1, hval1⟩ := parseHex4_correct (0xD800 + (c - 0x10000) / 0x400) hhi
    obtain ⟨hhex2, hval2⟩ := parseHex4_correct (0xDC00 + (c - 0x10000) % 0x400) hlo
    rw [he]
    simp only [hex4Lower, List.cons_append, List.nil_append, parseStringBody]
    simp only [show ¬(92 = 34) by omega, if_false, if_pos rfl,
      show ¬(117 = 34) ∧ ¬(117 = 92) ∧ ¬(117 = 47) ∧ ¬(117 = 98) ∧ ¬(117 = 102) ∧
        ¬(117 = 110) ∧ ¬(117 = 114) ∧ ¬(117 = 116) by omega]
    simp only [if_false, if_pos rfl, hhex1, hhex2, if_true, hval1, hval2]
    rw [if_pos (by omega : 0xD800 ≤ 0xD800 + (c - 0x10000) / 0x400 ∧
      0xD800 + (c - 0x10000) / 0x400 ≤ 0xDBFF)]
    rw [if_pos (by omega : 0xDC00 ≤ 0xDC00 + (c - 0x10000) % 0x400 ∧
      0xDC00 + (c - 0x10000) % 0x400 ≤ 0xDFFF)]
    have harith : 0x10000 + (0xD800 + (c - 0x10000) / 0x400 - 0xD800) * 0x400 +
        (0xDC00 + (c - 0x10000) % 0x400 - 0xDC00) = c := by omega
    rw [harith]

/-- The parser inverts json.dumps string serialization: reading the escaped
    body and the closing quote returns the original string and the rest. -/
theorem parseStringBody_dumps (s : List Nat) : ∀ fuel rest, scalarStr s = true →
    s.length < fuel →
    parseStringBody fuel (dumpsStrBody s ++ 34 :: rest) = some (s, rest) := by
  induction s with
  | nil =>
    intro fuel rest _ hf
    obtain ⟨f, rfl⟩ : ∃ f, fuel = f + 1 := ⟨fuel - 1, by omega⟩
    simp [dumpsStrBody, parseStringBody]
  | cons c s ih =>
    intro fuel rest hsc hf
    obtain ⟨f, rfl⟩ : ∃ f, fuel = f + 1 := ⟨fuel - 1, by omega⟩
    have hc : scalarCp c = true ∧ scalarStr s = true := by
      have := hsc
      simp only [scalarStr, List.all_cons, Bool.and_eq_true] at this
      exact ⟨this.1, this.2⟩
    have hbody : dumpsStrBody (c :: s) = escapeCp c ++ dumpsStrBody s := by
      simp [dumpsStrBody]
    rw [hbody, List.append_assoc, parseStringBody_escape c hc.1 f _]
    rw [ih f rest hc.2 (by simpa using hf)]
    rfl

theorem startsWithL_lit_false {a c : Nat} {p s : List Nat} (h : c ≠ a) :
    startsWithL (a :: p) (c :: s) = false := by
  have hne : (a == c) = false := beq_eq_false_iff_ne.mpr (fun he => h he.symm)
  simp [startsWithL, hne]

theorem dumps_head (m : Msg) : ∃ c cs, dumps m = c :: cs ∧
    (c = 34 ∨ c = 91 ∨ c = 123 ∨ c = 116 ∨ c = 102 ∨ c = 110 ∨ c = 45 ∨
      (48 ≤ c ∧ c ≤ 57)) := by
  cases m with
  | str s => exact ⟨34, dumpsStrBody s ++ [34], by simp [dumps], by omega⟩
  | int n =>
    by_cases hn : n < 0
    · exact ⟨45, natToDigits n.natAbs, by simp [dumps, dumpsInt, hn], by omega⟩
    · have hne := natToDigits_ne_nil n.toNat
      cases he : natToDigits n.toNat with
      | nil => exact absurd he hne
      | cons d ds =>
        have hd := natToDigits_digits n.toNat d (by rw [he]; simp)
        exact ⟨d, ds, by simp [dumps, dumpsInt, hn, he], by omega⟩
  | bool b =>
    cases b
    · exact ⟨102, pyStr "alse", by simp [dumps]; decide, by omega⟩
    · exact ⟨116, pyStr "rue", by simp [dumps]; decide, by omega⟩
  | null => exact ⟨110, pyStr "ull", by simp [dumps]; decide, by omega⟩
  | arr items => exact ⟨91, dumpsArrBody items ++ [93], by simp [dumps], by omega⟩
  | obj pairs => exact ⟨123, dumpsObjBody pairs ++ [125], by simp [dumps], by omega⟩

theorem skipWs_cons {c : Nat} {l : List Nat} (h : wsB c = false) :
    skipWs (c :: l) = c :: l := by
  simp [skipWs, List.dropWhile, h]

theorem skipWs_dumps (m : Msg) (r : List Nat) : skipWs (dumps m ++ r) = dumps m ++ r := by
  obtain ⟨c, cs, he, hc⟩ := dumps_head m
  rw [he, List.cons_append]
  refine skipWs_cons ?_
  simp only [wsB, Bool.or_eq_false_iff, beq_eq_false_iff_ne]
  omega

theorem headIs_dumps_false (m : Msg) (r : List Nat) (d : Nat)
    (hd : d = 93 ∨ d = 125 ∨ d = 44 ∨ d = 58) : headIs (dumps m ++ r) d = false := by
  obtain ⟨c, cs, he, hc⟩ := dumps_head m
  rw [he, List.cons_append]
  simp only [headIs, beq_eq_false_iff_ne]
  omega

theorem escapeCp_len (c : Nat) : 1 ≤ (escapeCp c).length := by
  unfold escapeCp
  split
  · simp
  · split
    · simp
    · split
      · simp
      · split
        · simp
        · split
          · simp
          · split
            · simp
            · split
              · simp
              · split
                · simp [hex4Lower]
                · split
                  · simp
                  · split
                    · simp [hex4Lower]
                    · simp [hex4Lower]

theorem dumpsStrBody_len (s : List Nat) : s.length ≤ (dumpsStrBody s).length := by
  induction s with
  | nil => simp [dumpsStrBody]
  | cons c s ih =>
    have h1 := escapeCp_len c
    simp only [dumpsStrBody, List.map_cons, List.flatten_cons, List.length_append,
      List.length_cons]
    simp only [dumpsStrBody] at ih
    omega

theorem delimOk_arrTail (l : MsgList) (rest : List Nat) :
    delimOk (dumpsArrTail l ++ 93 :: rest) = true := by
  cases l with
  | nil => rfl
  | cons v r => rfl

theorem delimOk_objTail (ps : MsgPairs) (rest : List Nat) :
    delimOk (dumpsObjTail ps ++ 125 :: rest) = true := by
  cases ps with
  | nil => rfl
  | cons k v r => rfl

mutual
theorem costV_le : ∀ m : Msg, costV m ≤ (dumps m).length
  | .str s => by simp [costV, dumps]
  | .int n => by
    simp only [costV, dumps]
    by_cases hn : n < 0
    · simp [dumpsInt, hn]
    · simp only [dumpsInt, hn, if_false]
      have := List.length_pos.mpr (natToDigits_ne_nil n.toNat)
      omega
  | .bool b => by cases b <;> simp [costV, dumps, pyStr]
  | .null => by simp [costV, dumps, pyStr]
  | .arr items => by
    have h := costL_le items
    simp only [costV, dumps, List.length_cons, List.length_append, List.length_nil]
    omega
  | .obj pairs => by
    have h := costP_le pairs
    simp only [costV, dumps, List.length_cons, List.length_append, List.length_nil]
    omega

theorem costL_le : ∀ l : MsgList, costL l ≤ (dumpsArrBody l).length + 1
  | .nil => by simp [costL]
  | .cons v rest => by
    have h1 := costV_le v
    have h2 := costL_le rest
    cases rest with
    | nil =>
      simp only [costL, dumpsArrBody, dumpsArrTail, List.append_nil, List.length_append]
      omega
    | cons w rest2 =>
      simp only [costL, dumpsArrBody, dumpsArrTail, List.length_append,
        List.length_cons] at h2 ⊢
      omega

theorem costP_le : ∀ ps : MsgPairs, costP ps ≤ (dumpsObjBody ps).length + 1
  | .nil => by simp [costP]
  | .cons k v rest => by
    have h1 := costV_le v
    have h2 := costP_le rest
    cases rest with
    | nil =>
      simp only [costP, dumpsObjBody, dumpsObjTail, List.append_nil, List.length_append]
      omega
    | cons k2 w rest2 =>
      simp only [costP, dumpsObjBody, dumpsObjTail, List.length_append,
        List.length_cons] at h2 ⊢
      omega
end

theorem dumpsInt_head (n : Int) :
    ∃ d tl, dumpsInt n = d :: tl ∧ (d = 45 ∨ (48 ≤ d ∧ d ≤ 57)) := by
  by_cases hn : n < 0
  · exact ⟨45, natToDigits n.natAbs, by simp [dumpsInt, hn], by omega⟩
  · have hne := natToDigits_ne_nil n.toNat
    cases he : natToDigits n.toNat with
    | nil => exact absurd he hne
    | cons d ds =>
      have hd := natToDigits_digits n.toNat d (by rw [he]; simp)
      exact ⟨d, ds, by simp [dumpsInt, hn, he], by omega⟩

mutual
theorem parseValue_dumps : ∀ (m : Msg) (fuel : Nat) (rest : List Nat), wfMsg m = true →
    costV m ≤ fuel → delimOk rest = true →
    parseValue fuel (dumps m ++ rest) = some (m, rest)
  | .str s, fuel, rest, hwf, hfu, hdl => by
    obtain ⟨f, rfl⟩ : ∃ f, fuel = f + 1 :=
      ⟨fuel - 1, by simp only [costV] at hfu; omega⟩
    have he : dumps (Msg.str s) ++ rest = 34 :: (dumpsStrBody s ++ (34 :: rest)) := by
      simp [dumps]
    rw [he]
    simp only [parseValue]
    simp only [if_true]
    have hlen : s.length < (dumpsStrBody s ++ (34 :: rest)).length + 1 := by
      have := dumpsStrBody_len s
      simp only [List.length_append, List.length_cons]
      omega
    rw [parseStringBody_dumps s _ rest (by simpa [wfMsg] using hwf) hlen]
    rfl
  | .int n, fuel, rest, hwf, hfu, hdl => by
    obtain ⟨f, rfl⟩ : ∃ f, fuel = f + 1 :=
      ⟨fuel - 1, by simp only [costV] at hfu; omega⟩
    have hnum := parseJsonNumber_dumpsInt n rest hdl
    obtain ⟨d, tl0, he, hd⟩ := dumpsInt_head n
    have hds : dumps (Msg.int n) = dumpsInt n := rfl
    rw [hds, he, List.cons_append]
    simp only [parseValue]
    rw [if_neg (show ¬ d = 34 by rcases hd with h | h <;> omega),
        if_neg (show ¬ d = 91 by rcases hd with h | h <;> omega),
        if_neg (show ¬ d = 123 by rcases hd with h | h <;> omega)]
    have ht : startsWithL (pyStr "true") (d :: (tl0 ++ rest)) = false := by
      have hx : pyStr "true" = 116 :: pyStr "rue" := by decide
      rw [hx]
      exact startsWithL_lit_false (by rcases hd with h | h <;> omega)
    have hf2 : startsWithL (pyStr "false") (d :: (tl0 ++ rest)) = false := by
      have hx : pyStr "false" = 102 :: pyStr "alse" := by decide
      rw [hx]
      exact startsWithL_lit_false (by rcases hd with h | h <;> omega)
    have hn2 : startsWithL (pyStr "null") (d :: (tl0 ++ rest)) = false := by
      have hx : pyStr "null" = 110 :: pyStr "ull" := by decide
      rw [hx]
      exact startsWithL_lit_false (by rcases hd with h | h <;> omega)
    rw [ht, hf2, hn2]
    simp only [Bool.false_eq_true, if_false]
    rw [← List.cons_append, ← he, hnum]
    rfl
  | .bool true, fuel, rest, hwf, hfu, hdl => by
    obtain ⟨f, rfl⟩ : ∃ f, fuel = f + 1 :=
      ⟨fuel - 1, by simp only [costV] at hfu; omega⟩
    have he : dumps (Msg.bool true) ++ rest = 116 :: (114 :: 117 :: 101 :: rest) := by
      have hx : dumps (Msg.bool true) = [116, 114, 117, 101] := by decide
      rw [hx]
      rfl
    rw [he]
    simp only [parseValue]
    rw [if_neg (by omega : ¬ (116 : Nat) = 34), if_neg (by omega : ¬ (116 : Nat) = 91),
        if_neg (by omega : ¬ (116 : Nat) = 123)]
    have ht : startsWithL (pyStr "true") (116 :: (114 :: 117 :: 101 :: rest)) = true := by
      have hx : pyStr "true" = [116, 114, 117, 101] := by decide
      rw [hx]
      simp [startsWithL]
    rw [ht]
    simp
  | .bool false, fuel, rest, hwf, hfu, hdl => by
    obtain ⟨f, rfl⟩ : ∃ f, fuel = f + 1 :=
      ⟨fuel - 1, by simp only [costV] at hfu; omega⟩
    have he : dumps (Msg.bool false) ++ rest = 102 :: (97 :: 108 :: 115 :: 101 :: rest) := by
      have hx : dumps (Msg.bool false) = [102, 97, 108, 115, 101] := by decide
      rw [hx]
      rfl
    rw [he]
    simp only [parseValue]
    rw [if_neg (by omega : ¬ (102 : Nat) = 34), if_neg (by omega : ¬ (102 : Nat) = 91),
        if_neg (by omega : ¬ (102 : Nat) = 123)]
    have ht : startsWithL (pyStr "true") (102 :: (97 :: 108 :: 115 :: 101 :: rest)) = false := by
      have hx : pyStr "true" = 116 :: pyStr "rue" := by decide
      rw [hx]
      exact startsWithL_lit_false (by omega)
    have hf2 : startsWithL (pyStr "false") (102 :: (97 :: 108 :: 115 :: 101 :: rest)) = true := by
      have hx : pyStr "false" = [102, 97, 108, 115, 101] := by decide
      rw [hx]
      simp [startsWithL]
    rw [ht]
    simp only [Bool.false_eq_true, if_false]
    rw [hf2]
    simp
  | .null, fuel, rest, hwf, hfu, hdl => by
    obtain ⟨f, rfl⟩ : ∃ f, fuel = f + 1 :=
      ⟨fuel - 1, by simp only [costV] at hfu; omega⟩
    have he : dumps Msg.null ++ rest = 110 :: (117 :: 108 :: 108 :: rest) := by
      have hx : dumps Msg.null = [110, 117, 108, 108] := by decide
      rw [hx]
      rfl
    rw [he]
    simp only [parseValue]
    rw [if_neg (by omega : ¬ (110 : Nat) = 34), if_neg (by omega : ¬ (110 : Nat) = 91),
        if_neg (by omega : ¬ (110 : Nat) = 123)]
    have ht : startsWithL (pyStr "true") (110 :: (117 :: 108 :: 108 :: rest)) = false := by
      have hx : pyStr "true" = 116 :: pyStr "rue" := by decide
      rw [hx]
      exact startsWithL_lit_false (by omega)
    have hf2 : startsWithL (pyStr "false") (110 :: (117 :: 108 :: 108 :: rest)) = false := by
      have hx : pyStr "false" = 102 :: pyStr "alse" := by decide
      rw [hx]
      exact startsWithL_lit_false (by omega)
    have hn2 : startsWithL (pyStr "null") (110 :: (117 :: 108 :: 108 :: rest)) = true := by
      have hx : pyStr "null" = [110, 117, 108, 108] := by decide
      rw [hx]
      simp [startsWithL]
    rw [ht]
    simp only [Bool.false_eq_true, if_false]
    rw [hf2]
    simp only [Bool.false_eq_true, if_false]
    rw [hn2]
    simp
  | .arr items, fuel, rest, hwf, hfu, hdl => by
    have hrecL := parseArrItems_dumps items
    obtain ⟨f, rfl⟩ : ∃ f, fuel = f + 1 :=
      ⟨fuel - 1, by simp only [costV] at hfu; omega⟩
    have he : dumps (Msg.arr items) ++ rest = 91 :: (dumpsArrBody items ++ (93 :: rest)) := by
      simp [dumps]
    rw [he]
    simp only [parseValue]
    rw [if_neg (by omega : ¬ (91 : Nat) = 34)]
    simp only [if_true]
    cases items with
    | nil =>
      simp only [dumpsArrBody, List.nil_append]
      rw [skipWs_cons (by decide)]
      simp [headIs]
    | cons v l2 =>
      simp only [dumpsArrBody, List.append_assoc]
      rw [skipWs_dumps v (dumpsArrTail l2 ++ (93 :: rest))]
      rw [headIs_dumps_false v _ 93 (by omega)]
      simp only [Bool.false_eq_true, if_false]
      have hre : dumps v ++ (dumpsArrTail l2 ++ (93 :: rest))
          = dumpsArrBody (MsgList.cons v l2) ++ (93 :: rest) := by
        simp [dumpsArrBody, List.append_assoc]
      rw [hre, hrecL f rest (by simpa [wfMsg] using hwf)
          (by simp only [costV] at hfu; omega) hdl (by simp)]
      rfl
  | .obj pairs, fuel, rest, hwf, hfu, hdl => by
    have hrecP := parseObjItems_dumps pairs
    obtain ⟨f, rfl⟩ : ∃ f, fuel = f + 1 :=
      ⟨fuel - 1, by simp only [costV] at hfu; omega⟩
    have he : dumps (Msg.obj pairs) ++ rest
        = 123 :: (dumpsObjBody pairs ++ (125 :: rest)) := by
      simp [dumps]
    rw [he]
    simp only [parseValue]
    rw [if_neg (by omega : ¬ (123 : Nat) = 34), if_neg (by omega : ¬ (123 : Nat) = 91)]
    simp only [if_true]
    cases pairs with
    | nil =>
      simp only [dumpsObjBody, List.nil_append]
      rw [skipWs_cons (by decide)]
      simp [headIs]
    | cons k v r2 =>
      have hk : dumpsObjBody (MsgPairs.cons k v r2) ++ (125 :: rest)
          = 34 :: ((dumpsStrBody k ++ (34 :: (58 :: (dumps v
              ++ (dumpsObjTail r2 ++ (125 :: rest))))))) := by
        simp [dumpsObjBody, dumpsKey, List.append_assoc]
      rw [hk, skipWs_cons (by decide)]
      have hhd : headIs (34 :: ((dumpsStrBody k ++ (34 :: (58 :: (dumps v
          ++ (dumpsObjTail r2 ++ (125 :: rest)))))))) 125 = false := by
        simp [headIs]
      rw [hhd]
      simp only [Bool.false_eq_true, if_false]
      rw [← hk]
      rw [hrecP f rest (by simpa [wfMsg] using hwf)
          (by simp only [costV] at hfu; omega) hdl (by simp)]
      rfl

theorem parseArrItems_dumps : ∀ (l : MsgList) (fuel : Nat) (rest : List Nat),
    wfMsgL l = true → costL l ≤ fuel → delimOk rest = true → l ≠ MsgList.nil →
    parseArrItems fuel (dumpsArrBody l ++ (93 :: rest)) = some (l, rest)
  | .nil, _, _, _, _, _, hne => absurd rfl hne
  | .cons v l2, fuel, rest, hwf, hfu, hdl, _ => by
    have hrecV := parseValue_dumps v
    have hrecL := parseArrItems_dumps l2
    obtain ⟨f, rfl⟩ : ∃ f, fuel = f + 1 :=
      ⟨fuel - 1, by simp only [costL] at hfu; omega⟩
    have hw : wfMsg v = true ∧ wfMsgL l2 = true := by
      simpa [wfMsgL, Bool.and_eq_true] using hwf
    simp only [dumpsArrBody, List.append_assoc]
    simp only [parseArrItems]
    rw [hrecV f (dumpsArrTail l2 ++ (93 :: rest)) hw.1
        (by simp only [costL] at hfu; omega) (delimOk_arrTail l2 rest)]
    cases l2 with
    | nil =>
      simp only [dumpsArrTail, List.nil_append]
      rw [skipWs_cons (by decide)]
      simp [headIs]
    | cons w l3 =>
      simp only [dumpsArrTail, List.cons_append, List.append_assoc]
      rw [skipWs_cons (by decide)]
      have h1 : headIs (44 :: (dumps w ++ (dumpsArrTail l3 ++ (93 :: rest)))) 93 = false := by
        simp [headIs]
      have h2 : headIs (44 :: (dumps w ++ (dumpsArrTail l3 ++ (93 :: rest)))) 44 = true := by
        simp [headIs]
      rw [h1]
      simp only [Bool.false_eq_true, if_false]
      rw [h2]
      simp only [if_true, List.tail_cons]
      rw [skipWs_dumps w (dumpsArrTail l3 ++ (93 :: rest))]
      have hre : dumps w ++ (dumpsArrTail l3 ++ (93 :: rest))
          = dumpsArrBody (MsgList.cons w l3) ++ (93 :: rest) := by
        simp [dumpsArrBody, List.append_assoc]
      rw [hre, hrecL f rest hw.2 (by simp only [costL] at hfu ⊢; omega) hdl (by simp)]
      rfl

theorem parseObjItems_dumps : ∀ (ps : MsgPairs) (fuel : Nat) (rest : List Nat),
    wfMsgP ps = true → costP ps ≤ fuel → delimOk rest = true → ps ≠ MsgPairs.nil →
    parseObjItems fuel (dumpsObjBody ps ++ (125 :: rest)) = some (ps, rest)
  | .nil, _, _, _, _, _, hne => absurd rfl hne
  | .cons k v r2, fuel, rest, hwf, hfu, hdl, _ => by
    have hrecV := parseValue_dumps v
    have hrecP := parseObjItems_dumps r2
    obtain ⟨f, rfl⟩ : ∃ f, fuel = f + 1 :=
      ⟨fuel - 1, by simp only [costP] at hfu; omega⟩
    have hw : scalarStr k = true ∧ wfMsg v = true ∧ wfMsgP r2 = true := by
      simpa [wfMsgP, Bool.and_eq_true, and_assoc] using hwf
    have he : dumpsObjBody (MsgPairs.cons k v r2) ++ (125 :: rest)
        = 34 :: (dumpsStrBody k ++ (34 :: (58 :: (dumps v
            ++ (dumpsObjTail r2 ++ (125 :: rest)))))) := by
      simp [dumpsObjBody, dumpsKey, List.append_assoc]
    rw [he]
    simp only [parseObjItems]
    simp only [if_true]
    have hlen : k.length < (dumpsStrBody k ++ (34 :: (58 :: (dumps v
        ++ (dumpsObjTail r2 ++ (125 :: rest)))))).length + 1 := by
      have := dumpsStrBody_len k
      simp only [List.length_append, List.length_cons]
      omega
    rw [parseStringBody_dumps k _ _ hw.1 hlen]
    simp only []
    rw [skipWs_cons (by decide)]
    have h58 : headIs (58 :: (dumps v ++ (dumpsObjTail r2 ++ (125 :: rest)))) 58 = true := by
      simp [headIs]
    rw [h58]
    simp only [if_true, List.tail_cons]
    rw [skipWs_dumps v (dumpsObjTail r2 ++ (125 :: rest))]
    rw [hrecV f (dumpsObjTail r2 ++ (125 :: rest)) hw.2.1
        (by simp only [costP] at hfu; omega) (delimOk_objTail r2 rest)]
    cases r2 with
    | nil =>
      simp only [dumpsObjTail, List.nil_append]
      rw [skipWs_cons (by decide)]
      simp [headIs]
    | cons k2 w r3 =>
      simp only [dumpsObjTail, List.cons_append, List.append_assoc]
      rw [skipWs_cons (by decide)]
      have h1 : headIs (44 :: (dumpsKey k2 ++ (dumps w ++ (dumpsObjTail r3
          ++ (125 :: rest))))) 125 = false := by
        simp [headIs]
      have h2 : headIs (44 :: (dumpsKey k2 ++ (dumps w ++ (dumpsObjTail r3
          ++ (125 :: rest))))) 44 = true := by
        simp [headIs]
      rw [h1]
      simp only [Bool.false_eq_true, if_false]
      rw [h2]
      simp only [if_true, List.tail_cons]
      have hsw : skipWs (dumpsKey k2 ++ (dumps w ++ (dumpsObjTail r3 ++ (125 :: rest))))
          = dumpsKey k2 ++ (dumps w ++ (dumpsObjTail r3 ++ (125 :: rest))) := by
        simp only [dumpsKey, List.cons_append]
        exact skipWs_cons (by decide)
      rw [hsw]
      have hre : dumpsKey k2 ++ (dumps w ++ (dumpsObjTail r3 ++ (125 :: rest)))
          = dumpsObjBody (MsgPairs.cons k2 w r3) ++ (125 :: rest) := by
        simp [dumpsObjBody, List.append_assoc]
      rw [hre]
      rw [hrecP f rest hw.2.2 (by simp only [costP] at hfu ⊢; omega) hdl (by simp)]
      rfl
end

theorem utf8Encode_ascii {l : List Nat} (h : ∀ c ∈ l, c < 128) : utf8Encode l = l := by
  induction l with
  | nil => rfl
  | cons c cs ih =>
    have hc : c < 128 := h c (by simp)
    simp only [utf8Encode, List.map_cons, List.flatten_cons]
    rw [show utf8EncodeCp c = [c] by simp [utf8EncodeCp, hc]]
    have := ih (fun d hd => h d (by simp [hd]))
    simp only [utf8Encode] at this
    rw [this]
    rfl

theorem utf8Encode_append (a b : List Nat) :
    utf8Encode (a ++ b) = utf8Encode a ++ utf8Encode b := by
  simp [utf8Encode]

theorem utf8DecodeStrict_ascii {l : List Nat} (h : ∀ c ∈ l, c < 128) :
    utf8DecodeStrict l = some l := by
  induction l with
  | nil => rfl
  | cons c cs ih =>
    have hc : c < 128 := h c (by simp)
    have step : utf8DecodeStrict (c :: cs) = (utf8DecodeStrict cs).map (c :: ·) := by
      conv_lhs => rw [utf8DecodeStrict]
      rw [if_pos hc]
    rw [step, ih (fun d hd => h d (by simp [hd]))]
    rfl

theorem utf8FromToks_ascii (bs : List Nat) : ∀ fuel, (∀ c ∈ bs, c < 128) →
    bs.length < fuel → utf8FromToks fuel (bs.map PctTok.byte) = bs := by
  induction bs with
  | nil =>
    intro fuel _ hf
    obtain ⟨f, rfl⟩ : ∃ f, fuel = f + 1 := ⟨fuel - 1, by omega⟩
    rfl
  | cons c cs ih =>
    intro fuel h hf
    obtain ⟨f, rfl⟩ : ∃ f, fuel = f + 1 := ⟨fuel - 1, by omega⟩
    have hc : c < 128 := h c (by simp)
    have step : utf8FromToks (f + 1) (PctTok.byte c :: List.map PctTok.byte cs)
        = c :: utf8FromToks f (List.map PctTok.byte cs) := by
      conv_lhs => rw [utf8FromToks]
      rw [if_pos hc]
    simp only [List.map_cons]
    rw [step, ih f (fun d hd => h d (by simp [hd])) (by simpa using hf)]

theorem utf8DecodeReplace_ascii {l : List Nat} (h : ∀ c ∈ l, c < 128) :
    utf8DecodeReplace l = l :=
  utf8FromToks_ascii l (2 * l.length + 2) h (by omega)

theorem hexLower_lt (x : Nat) (hx : x < 16) : hexLower x < 128 := by
  simp only [hexLower]
  split <;> omega

theorem hex4Lower_ascii (v : Nat) (hv : v < 0x10000) : ∀ d ∈ hex4Lower v, d < 128 := by
  intro d hd
  simp only [hex4Lower, List.mem_cons, List.not_mem_nil, or_false] at hd
  rcases hd with h | h | h | h
  · subst h; exact hexLower_lt _ (by omega)
  · subst h; exact hexLower_lt _ (by omega)
  · subst h; exact hexLower_lt _ (by omega)
  · subst h; exact hexLower_lt _ (by omega)

theorem escapeCp_ascii (c : Nat) (hc : scalarCp c = true) : ∀ d ∈ escapeCp c, d < 128 := by
  simp only [scalarCp, Bool.or_eq_true, Bool.and_eq_true, decide_eq_true_eq] at hc
  intro d hd
  by_cases h34 : c = 34
  · subst h34; simp [escapeCp] at hd; omega
  by_cases h92 : c = 92
  · subst h92; simp [escapeCp] at hd; omega
  by_cases h8 : c = 8
  · subst h8; simp [escapeCp] at hd; omega
  by_cases h9 : c = 9
  · subst h9; simp [escapeCp] at hd; omega
  by_cases h10 : c = 10
  · subst h10; simp [escapeCp] at hd; omega
  by_cases h12 : c = 12
  · subst h12; simp [escapeCp] at hd; omega
  by_cases h13 : c = 13
  · subst h13; simp [escapeCp] at hd; omega
  by_cases hctl : c < 32
  · rw [show escapeCp c = 92 :: 117 :: hex4Lower c by
        simp [escapeCp, h34, h92, h8, h9, h10, h12, h13, hctl]] at hd
    simp only [List.mem_cons] at hd
    rcases hd with h | h | h
    · omega
    · omega
    · exact hex4Lower_ascii c (by omega) d h
  by_cases hraw : c < 127
  · rw [show escapeCp c = [c] by
        simp [escapeCp, h34, h92, h8, h9, h10, h12, h13, hctl, hraw]] at hd
    simp at hd
    omega
  by_cases hbmp : c < 0x10000
  · rw [show escapeCp c = 92 :: 117 :: hex4Lower c by
        simp [escapeCp, h34, h92, h8, h9, h10, h12, h13, hctl, hraw, hbmp]] at hd
    simp only [List.mem_cons] at hd
    rcases hd with h | h | h
    · omega
    · omega
    · exact hex4Lower_ascii c (by omega) d h
  · rw [show escapeCp c = (92 :: 117 :: hex4Lower (0xD800 + (c - 0x10000) / 0x400)) ++
        (92 :: 117 :: hex4Lower (0xDC00 + (c - 0x10000) % 0x400)) by
        simp [escapeCp, h34, h92, h8, h9, h10, h12, h13, hctl, hraw, hbmp]] at hd
    simp only [List.mem_append, List.mem_cons] at hd
    rcases hd with (h | h | h) | (h | h | h)
    · omega
    · omega
    · exact hex4Lower_ascii _ (by omega) d h
    · omega
    · omega
    · exact hex4Lower_ascii _ (by omega) d h

theorem dumpsStrBody_ascii (s : List Nat) (hs : scalarStr s = true) :
    ∀ d ∈ dumpsStrBody s, d < 128 := by
  induction s with
  | nil => intro d hd; simp [dumpsStrBody] at hd
  | cons c cs ih =>
    have h1 : scalarCp c = true ∧ scalarStr cs = true := by
      simpa [scalarStr, List.all_cons, Bool.and_eq_true] using hs
    intro d hd
    simp only [dumpsStrBody, List.map_cons, List.flatten_cons, List.mem_append] at hd
    rcases hd with h | h
    · exact escapeCp_ascii c h1.1 d h
    · exact ih h1.2 d (by simpa [dumpsStrBody] using h)

mutual
theorem dumps_ascii : ∀ m : Msg, wfMsg m = true → ∀ c ∈ dumps m, c < 128
  | .str s, hwf, c, hc => by
    simp only [dumps, List.mem_cons, List.mem_append] at hc
    rcases hc with h | h | h
    · omega
    · exact dumpsStrBody_ascii s (by simpa [wfMsg] using hwf) c h
    · simp at h; omega
  | .int n, _, c, hc => by
    simp only [dumps] at hc
    by_cases hn : n < 0
    · simp only [dumpsInt, hn, if_true, List.mem_cons] at hc
      rcases hc with h | h
      · omega
      · have := natToDigits_digits n.natAbs c h
        omega
    · simp only [dumpsInt, hn, if_false] at hc
      have := natToDigits_digits n.toNat c hc
      omega
  | .bool b, _, c, hc => by
    cases b
    · have he : dumps (Msg.bool false) = [102, 97, 108, 115, 101] := by decide
      rw [he] at hc
      simp at hc
      omega
    · have he : dumps (Msg.bool true) = [116, 114, 117, 101] := by decide
      rw [he] at hc
      simp at hc
      omega
  | .null, _, c, hc => by
    have he : dumps Msg.null = [110, 117, 108, 108] := by decide
    rw [he] at hc
    simp at hc
    omega
  | .arr items, hwf, c, hc => by
    simp only [dumps, List.mem_cons, List.mem_append] at hc
    rcases hc with h | h | h
    · omega
    · exact dumpsArrBody_ascii items (by simpa [wfMsg] using hwf) c h
    · simp at h; omega
  | .obj pairs, hwf, c, hc => by
    simp only [dumps, List.mem_cons, List.mem_append] at hc
    rcases hc with h | h | h
    · omega
    · exact dumpsObjBody_ascii pairs (by simpa [wfMsg] using hwf) c h
    · simp at h; omega

theorem dumpsArrBody_ascii : ∀ l : MsgList, wfMsgL l = true → ∀ c ∈ dumpsArrBody l, c < 128
  | .nil, _, c, hc => by simp [dumpsArrBody] at hc
  | .cons v rest, hwf, c, hc => by
    have hw : wfMsg v = true ∧ wfMsgL rest = true := by
      simpa [wfMsgL, Bool.and_eq_true] using hwf
    simp only [dumpsArrBody, List.mem_append] at hc
    rcases hc with h | h
    · exact dumps_ascii v hw.1 c h
    · exact dumpsArrTail_ascii rest hw.2 c h

theorem dumpsArrTail_ascii : ∀ l : MsgList, wfMsgL l = true → ∀ c ∈ dumpsArrTail l, c < 128
  | .nil, _, c, hc => by simp [dumpsArrTail] at hc
  | .cons v rest, hwf, c, hc => by
    have hw : wfMsg v = true ∧ wfMsgL rest = true := by
      simpa [wfMsgL, Bool.and_eq_true] using hwf
    simp only [dumpsArrTail, List.mem_cons, List.mem_append] at hc
    rcases hc with h | h | h
    · omega
    · exact dumps_ascii v hw.1 c h
    · exact dumpsArrTail_ascii rest hw.2 c h

theorem dumpsObjBody_ascii : ∀ ps : MsgPairs, wfMsgP ps = true → ∀ c ∈ dumpsObjBody ps, c < 128
  | .nil, _, c, hc => by simp [dumpsObjBody] at hc
  | .cons k v rest, hwf, c, hc => by
    have hw : scalarStr k = true ∧ wfMsg v = true ∧ wfMsgP rest = true := by
      simpa [wfMsgP, Bool.and_eq_true, and_assoc] using hwf
    simp only [dumpsObjBody, dumpsKey, List.mem_append, List.mem_cons] at hc
    rcases hc with (h | (h | h | h | h)) | h | h
    · omega
    · exact dumpsStrBody_ascii k hw.1 c h
    · omega
    · omega
    · simp at h
    · exact dumps_ascii v hw.2.1 c h
    · exact dumpsObjTail_ascii rest hw.2.2 c h

theorem dumpsObjTail_ascii : ∀ ps : MsgPairs, wfMsgP ps = true → ∀ c ∈ dumpsObjTail ps, c < 128
  | .nil, _, c, hc => by simp [dumpsObjTail] at hc
  | .cons k v rest, hwf, c, hc => by
    have hw : scalarStr k = true ∧ wfMsg v = true ∧ wfMsgP rest = true := by
      simpa [wfMsgP, Bool.and_eq_true, and_assoc] using hwf
    simp only [dumpsObjTail, dumpsKey, List.mem_cons, List.mem_append] at hc
    rcases hc with h | (h | (h | h | h | h)) | h | h
    · omega
    · omega
    · exact dumpsStrBody_ascii k hw.1 c h
    · omega
    · omega
    · simp at h
    · exact dumps_ascii v hw.2.1 c h
    · exact dumpsObjTail_ascii rest hw.2.2 c h
end

theorem dumps_ne_nil (m : Msg) : dumps m ≠ [] := by
  obtain ⟨c, cs, he, _⟩ := dumps_head m
  simp [he]

theorem json_loads_dumps (m : Msg) (hwf : wfMsg m = true) : json_loads (dumps m) = some m := by
  unfold json_loads
  have h1 : skipWs (dumps m) = dumps m := by
    have := skipWs_dumps m []
    simpa using this
  rw [h1]
  have h2 : parseValue ((dumps m).length + 1) (dumps m) = some (m, []) := by
    have := parseValue_dumps m ((dumps m).length + 1) [] hwf
      (le_trans (costV_le m) (by omega)) rfl
    simpa using this
  rw [h2]
  rfl

theorem readline_append (l : List Nat) : ∀ rest, (∀ c ∈ l, c ≠ 10) →
    readline (l ++ 10 :: rest) = (l ++ [10], rest) := by
  induction l with
  | nil => intro rest _; simp [readline]
  | cons c cs ih =>
    intro rest h
    have hc : c ≠ 10 := h c (by simp)
    simp only [List.cons_append, readline, if_neg hc, List.append_eq]
    rw [ih rest (fun d hd => h d (by simp [hd]))]

theorem splitColon_append (a : List Nat) : ∀ b, (∀ c ∈ a, c ≠ 58) →
    splitColon (a ++ 58 :: b) = (a, b) := by
  induction a with
  | nil => intro b _; simp [splitColon]
  | cons c cs ih =>
    intro b h
    have hc : c ≠ 58 := h c (by simp)
    simp only [List.cons_append, splitColon, if_neg hc, List.append_eq]
    rw [ih b (fun d hd => h d (by simp [hd]))]

theorem stripWs_digits (ds : List Nat) (hne : ds ≠ []) (hd : ∀ c ∈ ds, 48 ≤ c ∧ c ≤ 57) :
    stripWs (32 :: (ds ++ [13, 10])) = ds := by
  obtain ⟨d, ds', rfl⟩ : ∃ d ds', ds = d :: ds' := by
    cases ds with
    | nil => exact absurd rfl hne
    | cons d ds' => exact ⟨d, ds', rfl⟩
  have hdd := hd d (by simp)
  unfold stripWs
  rw [List.dropWhile_cons]
  rw [if_pos (by decide : pyWs 32 = true)]
  rw [List.cons_append, List.dropWhile_cons,
    if_neg (by simp only [pyWs, Bool.or_eq_true, beq_iff_eq]; omega)]
  rw [show ((d :: (ds' ++ [13, 10])) : List Nat).reverse = 10 :: 13 :: (d :: ds').reverse by
    simp]
  rw [List.dropWhile_cons, if_pos (by decide : pyWs 10 = true)]
  rw [List.dropWhile_cons, if_pos (by decide : pyWs 13 = true)]
  obtain ⟨e, R', hR⟩ : ∃ e R', ((d :: ds') : List Nat).reverse = e :: R' := by
    cases hrev : ((d :: ds') : List Nat).reverse with
    | nil =>
      have := congrArg List.length hrev
      simp at this
    | cons e R' => exact ⟨e, R', rfl⟩
  have he : 48 ≤ e ∧ e ≤ 57 := hd e (by rw [← List.mem_reverse, hR]; simp)
  rw [hR, List.dropWhile_cons,
    if_neg (by simp only [pyWs, Bool.or_eq_true, beq_iff_eq]; omega)]
  rw [← hR, List.reverse_reverse]

theorem stripWs_of_digits (ds : List Nat) (hne : ds ≠ []) (hd : ∀ c ∈ ds, 48 ≤ c ∧ c ≤ 57) :
    stripWs ds = ds := by
  obtain ⟨d, ds', rfl⟩ : ∃ d ds', ds = d :: ds' := by
    cases ds with
    | nil => exact absurd rfl hne
    | cons d ds' => exact ⟨d, ds', rfl⟩
  have hdd := hd d (by simp)
  unfold stripWs
  rw [List.dropWhile_cons,
    if_neg (by simp only [pyWs, Bool.or_eq_true, beq_iff_eq]; omega)]
  obtain ⟨e, R', hR⟩ : ∃ e R', ((d :: ds') : List Nat).reverse = e :: R' := by
    cases hrev : ((d :: ds') : List Nat).reverse with
    | nil =>
      have := congrArg List.length hrev
      simp at this
    | cons e R' => exact ⟨e, R', rfl⟩
  have he : 48 ≤ e ∧ e ≤ 57 := hd e (by rw [← List.mem_reverse, hR]; simp)
  rw [hR, List.dropWhile_cons,
    if_neg (by simp only [pyWs, Bool.or_eq_true, beq_iff_eq]; omega)]
  rw [← hR, List.reverse_reverse]

theorem pyIntParse_natToDigits (n : Nat) : pyIntParse (natToDigits n) = some ((n : Int)) := by
  unfold pyIntParse
  rw [stripWs_of_digits _ (natToDigits_ne_nil n) (natToDigits_digits n)]
  obtain ⟨d, ds', hd⟩ : ∃ d ds', natToDigits n = d :: ds' := by
    cases he : natToDigits n with
    | nil => exact absurd he (natToDigits_ne_nil n)
    | cons d ds' => exact ⟨d, ds', rfl⟩
  have hdd := natToDigits_digits n d (by rw [hd]; simp)
  rw [hd]
  simp only []
  rw [if_neg (by omega : ¬ d = 43), if_neg (by omega : ¬ d = 45)]
  rw [if_pos ?hall]
  case hall =>
    rw [List.all_eq_true]
    intro c hc
    have := natToDigits_digits n c (by rw [hd]; exact hc)
    simp only [Bool.and_eq_true, decide_eq_true_eq]
    omega
  rw [← hd, digitsValNat_natToDigits n]

theorem headerLookup_single (k v : List Nat) : headerLookup [(k, v)] k = some v := by
  simp [headerLookup, List.find?]

theorem readHeaders_frame (ds body : List Nat) (f : Nat)
    (hne : ds ≠ []) (hd : ∀ c ∈ ds, 48 ≤ c ∧ c ≤ 57) :
    readHeaders (f + 2) (pyStr "Content-Length: " ++ (ds ++ (13 :: 10 :: 13 :: 10 :: body))) []
      = some ([(pyStr "content-length", ds)], body) := by
  have hline : pyStr "Content-Length: " ++ (ds ++ (13 :: 10 :: 13 :: 10 :: body))
      = (pyStr "Content-Length: " ++ ds ++ [13]) ++ 10 :: (13 :: 10 :: body) := by
    simp [List.append_assoc]
  have hno10 : ∀ c ∈ pyStr "Content-Length: " ++ ds ++ [13], c ≠ 10 := by
    intro c hc
    simp only [List.mem_append] at hc
    rcases hc with (h | h) | h
    · have hcl : ∀ c ∈ pyStr "Content-Length: ", c ≠ 10 := by decide
      exact hcl c h
    · have := hd c h; omega
    · simp at h; omega
  have hr1 := readline_append (pyStr "Content-Length: " ++ ds ++ [13]) (13 :: 10 :: body) hno10
  rw [hline]
  simp only [readHeaders]
  rw [hr1]
  have hlen16 : (pyStr "Content-Length: ").length = 16 := by decide
  rw [if_neg (by simp)]
  rw [if_neg (by
    intro h
    have := congrArg List.length h
    simp [hlen16] at this
    omega)]
  rw [if_pos (by
    have h58 : (58 : Nat) ∈ pyStr "Content-Length: " := by decide
    have hm : (58 : Nat) ∈ (pyStr "Content-Length: " ++ ds ++ [13]) ++ [10] := by
      simp [h58]
    exact List.elem_eq_true_of_mem hm)]
  have hasc : ∀ c ∈ (pyStr "Content-Length: " ++ ds ++ [13]) ++ [10], c < 128 := by
    intro c hc
    simp only [List.mem_append] at hc
    rcases hc with ((h | h) | h) | h
    · have hcl : ∀ c ∈ pyStr "Content-Length: ", c < 128 := by decide
      exact hcl c h
    · have := hd c h; omega
    · simp at h; omega
    · simp at h; omega
  rw [utf8DecodeReplace_ascii hasc]
  have hsplit : (pyStr "Content-Length: " ++ ds ++ [13]) ++ [10]
      = pyStr "Content-Length" ++ 58 :: (32 :: (ds ++ [13, 10])) := by
    have : pyStr "Content-Length: " = pyStr "Content-Length" ++ [58, 32] := by decide
    rw [this]
    simp [List.append_assoc]
  rw [hsplit, splitColon_append _ _ (by decide)]
  have hkey : lowerStr (stripWs (pyStr "Content-Length")) = pyStr "content-length" := by decide
  rw [hkey, stripWs_digits ds hne hd]
  simp only [readHeaders]
  rw [show readline (13 :: 10 :: body) = ([13, 10], body) by simp [readline]]
  rw [if_neg (by simp)]
  rw [if_pos rfl]

theorem read_write_roundtrip (m : Msg) (rest : List Nat) (hwf : wfMsg m = true) :
    read_message (writeBytes m ++ rest) = (ReadResult.success m, rest) := by
  have hasc : ∀ c ∈ dumps m, c < 128 := dumps_ascii m hwf
  have henc : utf8Encode (dumps m) = dumps m := utf8Encode_ascii hasc
  have hdg : ∀ c ∈ natToDigits (dumps m).length, 48 ≤ c ∧ c ≤ 57 :=
    natToDigits_digits (dumps m).length
  have hwb : writeBytes m ++ rest
      = pyStr "Content-Length: " ++ (natToDigits (dumps m).length
          ++ (13 :: 10 :: 13 :: 10 :: (dumps m ++ rest))) := by
    unfold writeBytes
    rw [henc, utf8Encode_append, utf8Encode_append]
    rw [utf8Encode_ascii (show ∀ c ∈ pyStr "Content-Length: ", c < 128 by decide)]
    rw [utf8Encode_ascii (fun c hc => by have := hdg c hc; omega)]
    rw [utf8Encode_ascii (show ∀ c ∈ ([13, 10, 13, 10] : List Nat), c < 128 by decide)]
    simp [List.append_assoc]
  rw [hwb]
  unfold read_message
  have hlen16 : (pyStr "Content-Length: ").length = 16 := by decide
  obtain ⟨f, hf⟩ : ∃ f, (pyStr "Content-Length: " ++ (natToDigits (dumps m).length
      ++ (13 :: 10 :: 13 :: 10 :: (dumps m ++ rest)))).length + 1 = f + 2 := by
    refine ⟨(pyStr "Content-Length: " ++ (natToDigits (dumps m).length
      ++ (13 :: 10 :: 13 :: 10 :: (dumps m ++ rest)))).length - 1, ?_⟩
    simp only [List.length_append, hlen16]
    omega
  rw [hf]
  rw [readHeaders_frame (natToDigits (dumps m).length) (dumps m ++ rest) f
    (natToDigits_ne_nil _) hdg]
  simp only []
  rw [headerLookup_single]
  simp only []
  rw [pyIntParse_natToDigits]
  simp only []
  have hpos : 0 < (dumps m).length := List.length_pos.mpr (dumps_ne_nil m)
  rw [if_neg (by
    intro h
    have : (dumps m).length = 0 := by exact_mod_cast h
    omega)]
  have hneg : ¬ (((dumps m).length : Int) < 0) := by simp
  simp only [if_neg hneg, Int.toNat_natCast, List.take_left, List.drop_left,
    eq_self_iff_true, if_true]
  rw [utf8DecodeStrict_ascii hasc]
  simp only []
  rw [json_loads_dumps m hwf]

/-- C6: framer round trip.  Writing any well-formed message emits the
    Content-Length header, the blank line and exactly that many UTF-8 body
    bytes; reading that stream back immediately returns a structurally equal
    message and leaves the rest of the stream untouched. -/
theorem claim_C6_framer_roundtrip (m : Msg) (rest : List Nat) (hwf : wfMsg m = true) :
    read_message (writeBytes m ++ rest) = (ReadResult.success m, rest) :=
  read_write_roundtrip m rest hwf

theorem claim_C6_witness :
    wfMsg (Msg.obj (mPairs
      [(pyStr "jsonrpc", Msg.str (pyStr "2.0")), (pyStr "id", Msg.int 1),
       (pyStr "result", Msg.null)])) = true ∧
    read_message (writeBytes (Msg.obj (mPairs
      [(pyStr "jsonrpc", Msg.str (pyStr "2.0")), (pyStr "id", Msg.int 1),
       (pyStr "result", Msg.null)])) ++ [99])
      = (ReadResult.success (Msg.obj (mPairs
          [(pyStr "jsonrpc", Msg.str (pyStr "2.0")), (pyStr "id", Msg.int 1),
           (pyStr "result", Msg.null)])), [99]) :=
  ⟨by decide,
    claim_C6_framer_roundtrip (Msg.obj (mPairs
      [(pyStr "jsonrpc", Msg.str (pyStr "2.0")), (pyStr "id", Msg.int 1),
       (pyStr "result", Msg.null)])) [99] (by decide)⟩

/-- C3: read_message reports a framing error for each malformed-message shape
    (missing content-length, zero content-length, short body, unparsable body),
    reports end of stream when the peer closes before the blank header line,
    and the two outcomes are distinct.  In the source both paths return None,
    but every framing-error exit logs a warning or error while the
    end-of-stream exit is silent; the ReadResult constructors record exactly
    that observable difference. -/
theorem claim_C3_framing_vs_eof :
    (read_message (pyBytes "\r\n")).1 = ReadResult.framingError ∧
    (read_message (pyBytes "X-Other: 1\r\n\r\nrest")).1 = ReadResult.framingError ∧
    (read_message (pyBytes "Content-Length: 0\r\n\r\n")).1 = ReadResult.framingError ∧
    (read_message (pyBytes "Content-Length: 5\r\n\r\nab")).1 = ReadResult.framingError ∧
    (read_message (pyBytes "Content-Length: 4\r\n\r\nnope")).1 = ReadResult.framingError ∧
    read_message [] = (ReadResult.endOfStream, []) ∧
    (read_message (pyBytes "Content-Length: 5\r\n")).1 = ReadResult.endOfStream ∧
    ReadResult.framingError ≠ ReadResult.endOfStream := by
  decide

/-- C9: when the client message carries an id field (a request) and the child
    output stream ends before the paired response, the loop forwards the one
    request, breaks out with reason childNone instead of iterating further, and
    the finally clause still invokes shutdown. -/
theorem claim_C9_child_eof_stops (hostRoot containerRoot : List Nat) (m : Msg)
    (extra childOut chRest : List Nat) (childIn clientOut : OutStream) (k : Nat)
    (hwf : wfMsg m = true) (hid : hasId m = some true)
    (heof : read_message childOut = (ReadResult.endOfStream, chRest)) :
    runProxy hostRoot containerRoot
        ⟨writeBytes m ++ extra, childOut, childIn, clientOut, k⟩ =
      { final := ⟨extra, childOut,
          write_message childIn (process_message hostRoot containerRoot true m),
          clientOut, k + 1⟩,
        reason := ExitReason.childNone,
        shutdownInvoked := true } := by
  unfold runProxy
  simp only []
  conv_lhs => rw [runLoop]
  simp only []
  rw [read_write_roundtrip m extra hwf]
  simp only []
  rw [hid]
  simp only []
  rw [heof]

theorem claim_C9_witness :
    wfMsg (Msg.obj (mPairs [(pyStr "id", Msg.int 1)])) = true ∧
    hasId (Msg.obj (mPairs [(pyStr "id", Msg.int 1)])) = some true ∧
    read_message [] = (ReadResult.endOfStream, []) ∧
    runProxy (pyStr "/work/host") (pyStr "/work/container")
        ⟨writeBytes (Msg.obj (mPairs [(pyStr "id", Msg.int 1)])) ++ [],
         [], ⟨[], false, 0⟩, ⟨[], false, 0⟩, 0⟩ =
      { final := ⟨[], [],
          write_message ⟨[], false, 0⟩
            (process_message (pyStr "/work/host") (pyStr "/work/container") true
              (Msg.obj (mPairs [(pyStr "id", Msg.int 1)]))),
          ⟨[], false, 0⟩, 0 + 1⟩,
        reason := ExitReason.childNone,
        shutdownInvoked := true } :=
  ⟨by decide, by decide, by decide,
    claim_C9_child_eof_stops (pyStr "/work/host") (pyStr "/work/container")
      (Msg.obj (mPairs [(pyStr "id", Msg.int 1)])) [] [] []
      ⟨[], false, 0⟩ ⟨[], false, 0⟩ 0 (by decide) (by decide) (by decide)⟩

/-- A write failure on the child stdin stream is invisible to the proxy loop:
    sending two notifications into a broken child stdin logs two write errors,
    yet the loop handles both messages and exits only when the client stream
    ends, with shutdown invoked by the finally clause as on every exit. -/
theorem claim_C4_counterexample :
    runProxy (pyStr "/work/host") (pyStr "/work/container")
        ⟨writeBytes (Msg.obj (mPairs [(pyStr "method", Msg.str (pyStr "one"))])) ++
           writeBytes (Msg.obj (mPairs [(pyStr "method", Msg.str (pyStr "two"))])),
         [], ⟨[], true, 0⟩, ⟨[], false, 0⟩, 0⟩ =
      { final := ⟨[], [], ⟨[], true, 2⟩, ⟨[], false, 0⟩, 2⟩,
        reason := ExitReason.clientNone,
        shutdownInvoked := true } := by
  decide

/-- The proxy loop's control flow never inspects the child stdin stream state:
    two runs that differ only in that stream agree on every other component of
    the outcome. -/
theorem runLoop_childIn_indep (hostRoot containerRoot : List Nat) :
    ∀ (fuel : Nat) (clientIn childOut : List Nat) (cInA cInB cOut : OutStream) (k : Nat),
      (runLoop hostRoot containerRoot fuel ⟨clientIn, childOut, cInA, cOut, k⟩).1.clientIn =
        (runLoop hostRoot containerRoot fuel ⟨clientIn, childOut, cInB, cOut, k⟩).1.clientIn ∧
      (runLoop hostRoot containerRoot fuel ⟨clientIn, childOut, cInA, cOut, k⟩).1.childOut =
        (runLoop hostRoot containerRoot fuel ⟨clientIn, childOut, cInB, cOut, k⟩).1.childOut ∧
      (runLoop hostRoot containerRoot fuel ⟨clientIn, childOut, cInA, cOut, k⟩).1.clientOut =
        (runLoop hostRoot containerRoot fuel ⟨clientIn, childOut, cInB, cOut, k⟩).1.clientOut ∧
      (runLoop hostRoot containerRoot fuel ⟨clientIn, childOut, cInA, cOut, k⟩).1.msgsHandled =
        (runLoop hostRoot containerRoot fuel ⟨clientIn, childOut, cInB, cOut, k⟩).1.msgsHandled ∧
      (runLoop hostRoot containerRoot fuel ⟨clientIn, childOut, cInA, cOut, k⟩).2 =
        (runLoop hostRoot containerRoot fuel ⟨clientIn, childOut, cInB, cOut, k⟩).2
  | 0, clientIn, childOut, cInA, cInB, cOut, k => by
    simp [runLoop]
  | fuel + 1, clientIn, childOut, cInA, cInB, cOut, k => by
    have hrec := runLoop_childIn_indep hostRoot containerRoot fuel
    simp only [runLoop]
    cases hread : read_message clientIn with
    | mk r rest =>
      cases r with
      | success msg =>
        simp only []
        cases hid : hasId msg with
        | none => exact ⟨rfl, rfl, rfl, rfl, rfl⟩
        | some b =>
          cases b with
          | false =>
            exact hrec rest childOut (write_message cInA
              (process_message hostRoot containerRoot true msg))
              (write_message cInB (process_message hostRoot containerRoot true msg))
              cOut (k + 1)
          | true =>
            cases hchild : read_message childOut with
            | mk r2 rest2 =>
              cases r2 with
              | success resp =>
                exact hrec rest rest2 (write_message cInA
                  (process_message hostRoot containerRoot true msg))
                  (write_message cInB (process_message hostRoot containerRoot true msg))
                  (write_message cOut (process_message hostRoot containerRoot false resp))
                  (k + 1)
              | endOfStream => exact ⟨rfl, rfl, rfl, rfl, rfl⟩
              | framingError => exact ⟨rfl, rfl, rfl, rfl, rfl⟩
      | endOfStream => exact ⟨rfl, rfl, rfl, rfl, rfl⟩
      | framingError => exact ⟨rfl, rfl, rfl, rfl, rfl⟩

/-- C4, amended: a write error is not fatal to the proxy loop.  The except
    clause inside write_message absorbs the I/O error and only logs it, so a
    write onto a broken stream merely increments the error count; and the
    whole run outcome, except for the child stdin stream component itself, is
    independent of the state of that stream, so the loop keeps iterating and
    exits for its usual reasons, with shutdown invoked by the finally clause
    rather than by the write failure. -/
theorem claim_C4_write_error_absorbed :
    (∀ (st : OutStream) (m : Msg), st.broken = true →
        write_message st m = { st with errorsLogged := st.errorsLogged + 1 }) ∧
    (∀ (hostRoot containerRoot clientIn childOut : List Nat)
        (cInA cInB cOut : OutStream) (k : Nat),
      (runProxy hostRoot containerRoot ⟨clientIn, childOut, cInA, cOut, k⟩).reason =
        (runProxy hostRoot containerRoot ⟨clientIn, childOut, cInB, cOut, k⟩).reason ∧
      (runProxy hostRoot containerRoot ⟨clientIn, childOut, cInA, cOut, k⟩).final.msgsHandled =
        (runProxy hostRoot containerRoot ⟨clientIn, childOut, cInB, cOut, k⟩).final.msgsHandled ∧
      (runProxy hostRoot containerRoot ⟨clientIn, childOut, cInA, cOut, k⟩).final.clientIn =
        (runProxy hostRoot containerRoot ⟨clientIn, childOut, cInB, cOut, k⟩).final.clientIn ∧
      (runProxy hostRoot containerRoot ⟨clientIn, childOut, cInA, cOut, k⟩).final.childOut =
        (runProxy hostRoot containerRoot ⟨clientIn, childOut, cInB, cOut, k⟩).final.childOut ∧
      (runProxy hostRoot containerRoot ⟨clientIn, childOut, cInA, cOut, k⟩).final.clientOut =
        (runProxy hostRoot containerRoot ⟨clientIn, childOut, cInB, cOut, k⟩).final.clientOut ∧
      (runProxy hostRoot containerRoot ⟨clientIn, childOut, cInA, cOut, k⟩).shutdownInvoked =
        true) :=
  ⟨fun st m h => by simp [write_message, h],
   fun hostRoot containerRoot clientIn childOut cInA cInB cOut k => by
    have hi := runLoop_childIn_indep hostRoot containerRoot (clientIn.length + 1)
      clientIn childOut cInA cInB cOut k
    exact ⟨hi.2.2.2.2, hi.2.2.2.1, hi.1, hi.2.1, hi.2.2.1, rfl⟩⟩

theorem claim_C4_witness :
    write_message ⟨[], true, 0⟩ Msg.null = ⟨[], true, 1⟩ ∧
    (runProxy [] [] ⟨[], [], ⟨[], true, 0⟩, ⟨[], false, 0⟩, 0⟩).reason =
      (runProxy [] [] ⟨[], [], ⟨[], false, 3⟩, ⟨[], false, 0⟩, 0⟩).reason :=
  ⟨claim_C4_write_error_absorbed.1 ⟨[], true, 0⟩ Msg.null rfl,
   (claim_C4_write_error_absorbed.2 [] [] [] [] ⟨[], true, 0⟩ ⟨[], false, 3⟩
      ⟨[], false, 0⟩ 0).1⟩


